import Mathlib

/-!
Shallow embedding of the serve core of the `mdmd` repository (a local
markdown HTTP server) and proofs about the frozen specification claims.

Sources embedded:
  * `src/serve.rs`  — path resolution pipeline, cache validation helpers,
    response builders, directory lister, request handler, freshness handler;
  * `src/backlinks.rs` — backlinks index inversion;
  * `src/html.rs`   — heading slugs and per-document anchor deduplication.

Modelling conventions:
  * Rust byte strings are `List Nat` (each element a byte value `< 256`);
    Rust `String`/`&str` are Lean `String` (both are sequences of Unicode
    scalar values); `utf8_bytes` is the UTF-8 encoding used when the Rust
    code inspects the bytes of a string.
  * Filesystem paths are component lists (`List String`), matching Rust
    `PathBuf` component semantics (`Path::starts_with` is component-wise).
  * Filesystem effects (`tokio::fs::*`, `std::fs::*`) are a record of
    functions `Fs`; `Option` models `Result`/`io::Error` fallibility.
  * The external `httpdate` crate and the markdown renderer output are
    abstracted as an `Oracle` record of functions; no claim below depends
    on their concrete behaviour, only on how `serve.rs` consumes them.
  * Machine integers: the FNV-1a hash is computed in `Nat` with explicit
    reduction `% 2 ^ 64` where Rust wraps.
  * ASCII-only modelling of Unicode case mapping / alphanumeric classes:
    `char::to_lowercase` and `char::is_alphanumeric` are modelled by their
    ASCII restrictions.  Every claim settled here is invariant under this
    restriction (the logic under verification never depends on non-ASCII
    classification).
-/

namespace Mdmd

/-! ## Byte-level utilities -/

/-- UTF-8 encoding of one Unicode scalar value, as byte values. -/
def utf8EncodeChar (c : Char) : List Nat :=
  let n := c.toNat
  if n < 0x80 then [n]
  else if n < 0x800 then [0xC0 + n / 64, 0x80 + n % 64]
  else if n < 0x10000 then [0xE0 + n / 4096, 0x80 + n / 64 % 64, 0x80 + n % 64]
  else [0xF0 + n / 262144, 0x80 + n / 4096 % 64, 0x80 + n / 64 % 64, 0x80 + n % 64]

/-- The UTF-8 bytes of a string (Rust `str::bytes` / `String::as_bytes`). -/
def utf8_bytes (s : String) : List Nat :=
  (s.data.map utf8EncodeChar).flatten

/-- Is `b` a UTF-8 continuation byte (`0x80..=0xBF`)? -/
def utf8IsCont (b : Nat) : Bool :=
  0x80 ≤ b && b < 0xC0

/-- Strict UTF-8 decoder over byte values: rejects truncated sequences,
overlong encodings, surrogates and out-of-range scalars, exactly as Rust
`String::from_utf8` does.  The first argument is fuel for structural
termination; every step consumes at least one byte, so fuel equal to the
list length (as supplied by `utf8DecodeList`) always suffices. -/
def utf8DecodeGo : Nat → List Nat → Option (List Char)
  | _, [] => some []
  | 0, _ :: _ => none
  | fuel + 1, b :: rest =>
    if b < 0x80 then
      (utf8DecodeGo fuel rest).map (fun cs => Char.ofNat b :: cs)
    else if b < 0xC2 then
      none
    else if b < 0xE0 then
      match rest with
      | c1 :: rest1 =>
        if utf8IsCont c1 then
          (utf8DecodeGo fuel rest1).map (fun cs => Char.ofNat ((b - 0xC0) * 64 + (c1 - 0x80)) :: cs)
        else none
      | [] => none
    else if b < 0xF0 then
      match rest with
      | c1 :: c2 :: rest2 =>
        if utf8IsCont c1 && utf8IsCont c2 then
          let cp := (b - 0xE0) * 4096 + (c1 - 0x80) * 64 + (c2 - 0x80)
          if cp < 0x800 then none
          else if 0xD800 ≤ cp && cp ≤ 0xDFFF then none
          else (utf8DecodeGo fuel rest2).map (fun cs => Char.ofNat cp :: cs)
        else none
      | _ => none
    else if b < 0xF5 then
      match rest with
      | c1 :: c2 :: c3 :: rest3 =>
        if utf8IsCont c1 && utf8IsCont c2 && utf8IsCont c3 then
          let cp := (b - 0xF0) * 262144 + (c1 - 0x80) * 4096 + (c2 - 0x80) * 64 + (c3 - 0x80)
          if cp < 0x10000 then none
          else if 0x10FFFF < cp then none
          else (utf8DecodeGo fuel rest3).map (fun cs => Char.ofNat cp :: cs)
        else none
      | _ => none
    else none

/-- The decoder at its natural fuel. -/
def utf8DecodeList (l : List Nat) : Option (List Char) :=
  utf8DecodeGo l.length l

/-- Decode UTF-8 bytes to a string (Rust `String::from_utf8`, `Ok` case). -/
def utf8_decode (l : List Nat) : Option String :=
  (utf8DecodeList l).map fun cs => String.mk cs

/-! ## String primitives

Structurally recursive char-list implementations of the string
operations the source uses (`split(c)`, `trim`, `starts_with(c)`,
`ends_with(c)`, `contains(c)`, `to_lowercase`, join), so that every
definition evaluates by kernel reduction. -/

/-- Rust `str::split(sep)` on a character separator. -/
def splitOnChar (sep : Char) : List Char → List (List Char)
  | [] => [[]]
  | c :: cs =>
    if c = sep then [] :: splitOnChar sep cs
    else
      match splitOnChar sep cs with
      | [] => [[c]]
      | h :: t => (c :: h) :: t

/-- `str::split` as a string-level operation. -/
def strSplit (sep : Char) (s : String) : List String :=
  (splitOnChar sep s.data).map String.mk

/-- Join with a separator (`PathBuf::display` with `/`, `intercalate`). -/
def strJoinSep (sep : String) : List String → String
  | [] => ""
  | [x] => x
  | x :: xs => x ++ sep ++ strJoinSep sep xs

/-- ASCII whitespace (the whitespace the source's header values contain;
Unicode-only whitespace is outside the model). -/
def isAsciiWhitespace (c : Char) : Bool :=
  c = ' ' ∨ c = '\t' ∨ c = '\n' ∨ c = '\r'

/-- Rust `str::trim`. -/
def strTrim (s : String) : String :=
  String.mk (((s.data.dropWhile isAsciiWhitespace).reverse.dropWhile
    isAsciiWhitespace).reverse)

/-- ASCII lowercasing of one character. -/
def charLowerAscii (c : Char) : Char :=
  if 65 ≤ c.toNat ∧ c.toNat ≤ 90 then Char.ofNat (c.toNat + 32) else c

/-- ASCII alphanumeric class. -/
def isAsciiAlphanumChar (c : Char) : Bool :=
  (48 ≤ c.toNat ∧ c.toNat ≤ 57) ∨ (65 ≤ c.toNat ∧ c.toNat ≤ 90) ∨
    (97 ≤ c.toNat ∧ c.toNat ≤ 122)

/-- Rust `str::starts_with(c)`. -/
def strHeadIs (c : Char) (s : String) : Bool :=
  s.data.head? = some c

/-- Rust `str::ends_with(c)`. -/
def strLastIs (c : Char) (s : String) : Bool :=
  s.data.getLast? = some c

/-- Rust `str::contains(c)`. -/
def strContainsChar (c : Char) (s : String) : Bool :=
  s.data.any fun x => x = c

/-- Rust `Path::starts_with`: component-wise prefix test (`base` is the
candidate prefix of `path`). -/
def path_starts_with (path base : List String) : Bool :=
  match base, path with
  | [], _ => true
  | _ :: _, [] => false
  | b :: bs, p :: ps => if p = b then path_starts_with ps bs else false

/-! ## Decimal formatting (Rust `format!("{}", n)` for unsigned integers) -/

/-- Fuel-driven digit extraction; with `fuel ≥ n` it computes the decimal
digits of `n`, most significant first. -/
def decDigitsGo : Nat → Nat → List Nat
  | 0, n => [n % 10]
  | fuel + 1, n => if n < 10 then [n] else decDigitsGo fuel (n / 10) ++ [n % 10]

/-- Decimal digits of `n`, most significant first. -/
def decDigits (n : Nat) : List Nat := decDigitsGo n n

theorem decDigitsGo_fuel : ∀ fuel n, n ≤ fuel → ∀ fuel', n ≤ fuel' →
    decDigitsGo fuel n = decDigitsGo fuel' n := by
  intro fuel
  induction fuel with
  | zero =>
    intro n hn fuel' _
    have hn0 : n = 0 := Nat.le_zero.mp hn
    subst hn0
    cases fuel' with
    | zero => rfl
    | succ f => show [0 % 10] = if 0 < 10 then [0] else _; rw [if_pos (by omega)]
  | succ f ih =>
    intro n hn fuel' hn'
    show (if n < 10 then [n] else decDigitsGo f (n / 10) ++ [n % 10]) = _
    by_cases h10 : n < 10
    · rw [if_pos h10]
      cases fuel' with
      | zero =>
        have hn0 : n = 0 := Nat.le_zero.mp hn'
        subst hn0; rfl
      | succ f' => show _ = if n < 10 then [n] else _; rw [if_pos h10]
    · rw [if_neg h10]
      cases fuel' with
      | zero => omega
      | succ f' =>
        show _ = if n < 10 then [n] else decDigitsGo f' (n / 10) ++ [n % 10]
        rw [if_neg h10]
        have hd : n / 10 < n := Nat.div_lt_self (by omega) (by omega)
        rw [ih (n / 10) (by omega) f' (by omega)]

/-- The recursive unfolding of `decDigits`. -/
theorem decDigits_eq (n : Nat) :
    decDigits n = if n < 10 then [n] else decDigits (n / 10) ++ [n % 10] := by
  show decDigitsGo n n = _
  cases n with
  | zero => show [0 % 10] = if 0 < 10 then [0] else _; rw [if_pos (by omega)]
  | succ m =>
    show (if m + 1 < 10 then [m + 1] else decDigitsGo m ((m + 1) / 10) ++ _) = _
    by_cases h10 : m + 1 < 10
    · rw [if_pos h10, if_pos h10]
    · rw [if_neg h10, if_neg h10]
      have hd : (m + 1) / 10 < m + 1 := Nat.div_lt_self (by omega) (by omega)
      rw [decDigitsGo_fuel m ((m + 1) / 10) (by omega) ((m + 1) / 10) (by omega)]
      rfl

/-- A decimal digit as a character. -/
def digitChar (d : Nat) : Char := Char.ofNat (48 + d)

/-- Decimal rendering of a natural number (model of `format!("{}", n)`). -/
def natDecimal (n : Nat) : String :=
  String.mk ((decDigits n).map digitChar)

/-! ## Hex formatting -/

/-- Lowercase hex digit (for the `{:016x}` ETag format). -/
def hexDigitLower (d : Nat) : Char :=
  if d < 10 then Char.ofNat (48 + d) else Char.ofNat (87 + d)

/-- The 16-lowercase-hex-digit rendering of a 64-bit value (`{:016x}`). -/
def toHex16 (n : Nat) : String :=
  String.mk ((List.range 16).map fun i => hexDigitLower (n / 16 ^ (15 - i) % 16))

/-! ## serve.rs: cache-validation helpers -/

/-- `serve.rs::fnv1a_64`: 64-bit FNV-1a over bytes, with wrapping
multiplication modelled by explicit reduction mod `2 ^ 64`. -/
def fnv1a_64 (data : List Nat) : Nat :=
  data.foldl (fun hash byte => ((hash ^^^ byte) * 1099511628211) % 2 ^ 64)
    14695981039346656037

/-- `serve.rs::compute_etag`: strong quoted 16-hex-char ETag. -/
def compute_etag (data : List Nat) : String :=
  "\"" ++ toHex16 (fnv1a_64 data) ++ "\""

/-- `serve.rs::etag_matches`: `If-None-Match` is `*` or its comma-separated,
whitespace-trimmed list contains `etag`. -/
def etag_matches (if_none_match : String) (etag : String) : Bool :=
  let trimmed := strTrim if_none_match
  if trimmed = "*" then true
  else (strSplit ',' trimmed).any fun e => strTrim e = etag

/-- `serve.rs::not_modified_since`.  The external `httpdate` parser is the
function argument `parse` (HTTP-dates have whole-second resolution, hence
`Option Nat` seconds since the Unix epoch); `mtime` is the file modification
time in nanoseconds since the epoch.  The Rust code truncates the mtime to
whole seconds before the comparison. -/
def not_modified_since (parse : String → Option Nat) (ims_header : String)
    (mtime : Nat) : Bool :=
  match parse ims_header with
  | some req_time => mtime / 1000000000 ≤ req_time
  | none => false

/-! ## serve.rs: path-resolution helpers -/

/-- `serve.rs::hex_digit`. -/
def hex_digit (b : Nat) : Option Nat :=
  if 48 ≤ b && b ≤ 57 then some (b - 48)
  else if 97 ≤ b && b ≤ 102 then some (b - 97 + 10)
  else if 65 ≤ b && b ≤ 70 then some (b - 65 + 10)
  else none

/-- The `%XX` decoding loop of `serve.rs::percent_decode`, over bytes.
Note the Rust bound check `i + 2 >= bytes.len()` demands two bytes after
the `%`. -/
def percentDecodeBytes : List Nat → Option (List Nat)
  | [] => some []
  | b :: rest =>
    if b = 37 then
      match rest with
      | hi :: lo :: rest2 =>
        match hex_digit hi, hex_digit lo with
        | some h, some l => (percentDecodeBytes rest2).map fun out => (h * 16 + l) :: out
        | _, _ => none
      | _ => none
    else (percentDecodeBytes rest).map fun out => b :: out

/-- `serve.rs::percent_decode`: byte-by-byte `%XX` decoding followed by
UTF-8 validation (`String::from_utf8`). -/
def percent_decode (encoded : String) : Option String :=
  (percentDecodeBytes (utf8_bytes encoded)).bind utf8_decode

/-- The component loop of `serve.rs::normalize_path`: empty and `.`
segments are ignored, `..` pops the stack, popping an empty stack aborts
with `none`. -/
def normalizePathGo : List String → List String → Option (List String)
  | [], acc => some acc
  | c :: cs, acc =>
    if c = "" ∨ c = "." then normalizePathGo cs acc
    else if c = ".." then
      match acc with
      | [] => none
      | _ => normalizePathGo cs acc.dropLast
    else normalizePathGo cs (acc ++ [c])

/-- `serve.rs::normalize_path`: split the decoded URL path on `/` and
normalize with a stack; the resulting `PathBuf` is its component list. -/
def normalize_path (decoded : String) : Option (List String) :=
  normalizePathGo (strSplit '/' decoded) []

/-- ASCII lowercasing of a string (model of `str::to_lowercase`, which the
source only applies to extension / file-name / heading strings). -/
def strLower (s : String) : String :=
  String.mk (s.data.map charLowerAscii)

/-- `serve.rs::mime_for_ext`: extension (lowercased) to `Content-Type`. -/
def mime_for_ext (ext : String) : String :=
  let e := strLower ext
  if e = "md" ∨ e = "html" ∨ e = "htm" then "text/html; charset=utf-8"
  else if e = "css" then "text/css"
  else if e = "js" then "text/javascript"
  else if e = "png" then "image/png"
  else if e = "jpg" ∨ e = "jpeg" then "image/jpeg"
  else if e = "svg" then "image/svg+xml"
  else if e = "gif" then "image/gif"
  else if e = "ico" then "image/x-icon"
  else if e = "woff2" then "font/woff2"
  else if e = "pdf" then "application/pdf"
  else "application/octet-stream"

/-- Unreserved URL bytes per RFC 3986 §2.3 (the set kept verbatim by
`serve.rs::percent_encode_segment`): ALPHA / DIGIT / `-` / `_` / `.` / `~`. -/
def unreservedByte (b : Nat) : Bool :=
  (48 ≤ b && b ≤ 57) || (65 ≤ b && b ≤ 90) || (97 ≤ b && b ≤ 122) ||
    b = 45 || b = 95 || b = 46 || b = 126

/-- Uppercase hex digit (the `HEX` table of `percent_encode_segment`). -/
def hexDigitUpper (d : Nat) : Char :=
  if d < 10 then Char.ofNat (48 + d) else Char.ofNat (55 + d)

/-- Per-byte encoding step of `serve.rs::percent_encode_segment`. -/
def percentEncodeByte (b : Nat) : List Char :=
  if unreservedByte b then [Char.ofNat b]
  else ['%', hexDigitUpper (b / 16), hexDigitUpper (b % 16)]

/-- `serve.rs::percent_encode_segment`: encode every non-unreserved byte of
the UTF-8 encoding as `%XX` with uppercase hex. -/
def percent_encode_segment (s : String) : String :=
  String.mk (((utf8_bytes s).map percentEncodeByte).flatten)

/-- `serve.rs::is_raw_mode`: the query string contains the exact `raw=1`
parameter after splitting on `&`. -/
def is_raw_mode (query : String) : Bool :=
  (strSplit '&' query).any fun param => param = "raw=1"

/-- `serve.rs::html_escape_text`: minimal escaping of `<`, `>`, `&`, `"`. -/
def html_escape_text (s : String) : String :=
  s.data.foldl (fun out c =>
    if c = '<' then out ++ "&lt;"
    else if c = '>' then out ++ "&gt;"
    else if c = '&' then out ++ "&amp;"
    else if c = '"' then out ++ "&quot;"
    else out.push c) ""

/-- `backlinks.rs::url_key_from_rel_path`: the URL key is literally
`"/" + rel`. -/
def url_key_from_rel_path (rel : String) : String :=
  "/" ++ rel

/-- ASCII-case-insensitive string equality (Rust `eq_ignore_ascii_case`). -/
def eq_ignore_ascii_case (a b : String) : Bool :=
  strLower a = strLower b

/-- Rust `Path::extension` on a file name: the substring after the last `.`,
or `None` when there is no `.` or the name is a dot-file with no other dot. -/
def fileExt (name : String) : Option String :=
  match strSplit '.' name with
  | [] => none
  | [_] => none
  | parts => if parts.head? = some "" ∧ parts.length = 2 then none else parts.getLast?

/-- `Path::extension` of a component-list path: the extension of its last
component. -/
def pathExt (p : List String) : Option String :=
  p.getLast?.bind fileExt

/-- Rust `Path::with_extension("md")` in the only situation the source uses
it (`candidate.extension().is_none()`): append `.md` to the file name. -/
def withExtMd (p : List String) : List String :=
  match p.getLast? with
  | none => p
  | some name => p.dropLast ++ [name ++ ".md"]

/-! ## Data model: responses, filesystem, application state -/

/-- `serve.rs::MAX_FILE_SIZE` (16 MiB). -/
def MAX_FILE_SIZE : Nat := 16 * 1024 * 1024

/-- An HTTP response: status code, headers in emission order, body bytes. -/
structure Response where
  status : Nat
  headers : List (String × String)
  body : List Nat
  deriving DecidableEq, Repr

/-- Does the response carry a header with the given name? -/
def Response.hasHeader (r : Response) (name : String) : Bool :=
  r.headers.any fun h => h.1 = name

/-- The first value of the named header, if present. -/
def Response.getHeader (r : Response) (name : String) : Option String :=
  (r.headers.find? fun h => h.1 = name).map fun h => h.2

/-- File metadata as observed through `std::fs::Metadata`: kind flags, byte
length, and the modification time in nanoseconds since the Unix epoch
(`none` models a failing `modified()` call; pre-epoch mtimes are outside
the model). -/
structure FsMeta where
  isFile : Bool
  isDir : Bool
  size : Nat
  mtime : Option Nat
  deriving DecidableEq, Repr

/-- One `read_dir` entry.  `isDir = none` models a failing `metadata` call
(the source skips the entry); non-UTF-8 names and failing `file_type`
calls — which the source also skips — are outside the model. -/
structure DirEntry where
  name : String
  isSymlink : Bool
  canonicalTarget : Option (List String)
  isDir : Option Bool
  deriving DecidableEq, Repr

/-- The filesystem as a record of (pure snapshots of) the I/O operations the
serve core performs; `none` is the error case of each call. -/
structure Fs where
  metadata : List String → Option FsMeta
  canonicalize : List String → Option (List String)
  readToString : List String → Option String
  readBytes : List String → Option (List Nat)
  readDir : List String → Option (List DirEntry)

/-- `serve.rs::AppState` (the fields the request handlers consume).
`css_bytes`/`js_bytes` stand for the embedded asset constants of
`web_assets.rs`, which are compile-time file inclusions not present in the
sources. -/
structure AppState where
  serve_root : List String
  canonical_root : List String
  entry_url_path : String
  css_etag : String
  js_etag : String
  asset_mtime : Nat
  css_bytes : List Nat
  js_bytes : List Nat

/-- External collaborators of the handler, abstracted as functions: the
`httpdate` crate's parser and formatter, and the markdown rendering
pipeline (`html::render_markdown` + `html::build_page_shell`) which maps
the file content and its canonical path to the final HTML page. -/
structure Oracle where
  parse_http_date : String → Option Nat
  fmt_http_date : Nat → String
  render_page : String → List String → String

/-- One GET request: URI path, query string, and the two conditional
headers the handler extracts. -/
structure Request where
  path : String
  query : String
  if_none_match : Option String
  if_modified_since : Option String

/-! ## serve.rs: response builders -/

/-- `serve.rs::not_modified_response`. -/
def not_modified_response (etag last_modified : String) : Response :=
  ⟨304, [("ETag", etag), ("Last-Modified", last_modified)], []⟩

/-- `serve.rs::not_found_response`: terse 404 with security headers. -/
def not_found_response : Response :=
  ⟨404,
    [("Content-Type", "text/plain; charset=utf-8"),
     ("X-Content-Type-Options", "nosniff")],
    utf8_bytes "Not Found"⟩

/-- `serve.rs::too_large_response`: 413 with security headers. -/
def too_large_response (norm_path : String) (size : Nat) : Response :=
  ⟨413,
    [("Content-Type", "text/plain; charset=utf-8"),
     ("X-Content-Type-Options", "nosniff")],
    utf8_bytes ("Content Too Large: " ++ norm_path ++ " (" ++ natDecimal size ++
      " bytes exceeds " ++ natDecimal MAX_FILE_SIZE ++ " byte limit)")⟩

/-! ## serve.rs: directory-listing policy and renderer -/

/-- Character-list comparison (Rust `str` `Ord`: UTF-8 byte order, which on
scalar-value sequences equals codepoint order). -/
def charListCmp : List Char → List Char → Ordering
  | [], [] => Ordering.eq
  | [], _ :: _ => Ordering.lt
  | _ :: _, [] => Ordering.gt
  | x :: xs, y :: ys =>
    if x < y then Ordering.lt
    else if y < x then Ordering.gt
    else charListCmp xs ys

/-- The comparator of `apply_dir_listing_policy`: directories first, then
case-insensitive name order. -/
def dirEntryCmp (a b : String × Bool) : Ordering :=
  match a.2, b.2 with
  | true, false => Ordering.lt
  | false, true => Ordering.gt
  | _, _ => charListCmp (strLower a.1).data (strLower b.1).data

/-- Stable insertion: `x` goes before the first element it does not compare
greater than. -/
def insertSorted (cmp : α → α → Ordering) (x : α) : List α → List α
  | [] => [x]
  | y :: ys =>
    if cmp x y = Ordering.gt then y :: insertSorted cmp x ys else x :: y :: ys

/-- Stable sort (model of `Vec::sort_by`, which is stable: the output is
the unique nondecreasing reordering preserving the relative order of
comparator-equal elements, and is produced by right-fold insertion). -/
def stableSortBy (cmp : α → α → Ordering) (l : List α) : List α :=
  l.foldr (insertSorted cmp) []

/-- `serve.rs::apply_dir_listing_policy`: drop dot-entries, sort
directories first then case-insensitive alphabetical. -/
def apply_dir_listing_policy (entries : List (String × Bool)) : List (String × Bool) :=
  stableSortBy dirEntryCmp (entries.filter fun e => !(strHeadIs '.' e.1))

/-- Symlink containment test used by both directory-listing loops: keep an
entry's symlink only when its canonicalized target starts with the
canonical root. -/
def symlinkContained (root : List String) (e : DirEntry) : Bool :=
  match e.canonicalTarget with
  | some t => path_starts_with t root
  | none => false

/-- The shared entry-collection loop of `render_directory_index_response`
and `build_nearest_parent_listing`: skip dot-entries, skip out-of-root
symlinks, skip entries whose metadata fails, record `(name, is_dir)`. -/
def dirIndexRawEntries (root : List String) (entries : List DirEntry) :
    List (String × Bool) :=
  entries.filterMap fun e =>
    if strHeadIs '.' e.name then none
    else if e.isSymlink && !symlinkContained root e then none
    else
      match e.isDir with
      | some d => some (e.name, d)
      | none => none

/-- The breadcrumb segment loop of `serve.rs::build_breadcrumbs`. -/
def breadcrumbsGo : List String → String → String → String
  | [], _, html => html
  | seg :: rest, href, html =>
    let href2 := href ++ "/" ++ percent_encode_segment seg
    breadcrumbsGo rest href2
      (html ++ " / <a href=\"" ++ href2 ++ "/\">" ++ seg ++ "</a>")

/-- `serve.rs::build_breadcrumbs`. -/
def build_breadcrumbs (url_pre : String) : String :=
  breadcrumbsGo ((strSplit '/' url_pre).filter fun s => s ≠ "") ""
    "<a href=\"/\">/</a>"

/-- The `<li>` line pushed per entry by the directory-index loop (lines
1004–1012): the href percent-encodes the name (directories get a trailing
`/`); the display text is the raw name. -/
def dirItemHtml (base : String) (e : String × Bool) : String :=
  let encoded := percent_encode_segment e.1
  let href := if e.2 then base ++ encoded ++ "/" else base ++ encoded
  "<li><a href=\"" ++ href ++ "\">" ++ e.1 ++ "</a></li>"

/-- The HTML body built by `render_directory_index_response` (lines
994–1013): the URL prefix and each entry name are interpolated verbatim;
only the hrefs percent-encode the name. -/
def dir_index_body (url_pre : String) (entries : List (String × Bool)) : String :=
  let breadcrumbs := build_breadcrumbs url_pre
  let base := if strLastIs '/' url_pre then url_pre else url_pre ++ "/"
  let head := "<!DOCTYPE html><html lang=\"en\"><head><meta charset=\"utf-8\"><title>Index of "
    ++ url_pre ++ "</title></head><body><nav>" ++ breadcrumbs
    ++ "</nav><h1>Index of " ++ url_pre ++ "</h1><ul>"
  let items := entries.foldl (fun acc e => acc ++ dirItemHtml base e) head
  items ++ "</ul></body></html>"

/-- `serve.rs::render_directory_index_response`: 404 when the directory
cannot be read, otherwise a 200 whose headers are exactly `Content-Type`,
`X-Content-Type-Options` and `ETag` (no `Last-Modified`). -/
def render_directory_index_response (st : AppState) (fs : Fs)
    (dir_path : List String) (url_pre : String) : Response :=
  match fs.readDir dir_path with
  | none => not_found_response
  | some listing =>
    let entries := apply_dir_listing_policy (dirIndexRawEntries st.canonical_root listing)
    let body := dir_index_body url_pre entries
    ⟨200,
      [("Content-Type", "text/html; charset=utf-8"),
       ("X-Content-Type-Options", "nosniff"),
       ("ETag", compute_etag (utf8_bytes body))],
      utf8_bytes body⟩

/-- The HTML snippet built by `build_nearest_parent_listing` (lines
726–753): names and hrefs pass through `html_escape_text` before
interpolation. -/
def build_nearest_parent_listing_body (root : List String)
    (listing : List DirEntry) (url_pre : String) : String :=
  let entries := apply_dir_listing_policy (dirIndexRawEntries root listing)
  if entries.isEmpty then ""
  else
    let base := if strLastIs '/' url_pre then url_pre else url_pre ++ "/"
    let start := "<h2>Contents of " ++ html_escape_text url_pre ++ "</h2><ul>"
    let items := entries.foldl (fun acc e =>
      let encoded := percent_encode_segment e.1
      let href := if e.2 then base ++ encoded ++ "/" else base ++ encoded
      acc ++ "<li><a href=\"" ++ html_escape_text href ++ "\">"
        ++ html_escape_text e.1 ++ "</a></li>") start
    items ++ "</ul>"

/-- `serve.rs::build_nearest_parent_listing`: empty string when the
directory cannot be read. -/
def build_nearest_parent_listing (st : AppState) (fs : Fs)
    (dir_path : List String) (url_pre : String) : String :=
  match fs.readDir dir_path with
  | none => ""
  | some listing => build_nearest_parent_listing_body st.canonical_root listing url_pre

/-- `serve.rs::derive_entry_url_path`: strip the canonical root, then `/`
plus the percent-encoded segments joined by `/`. -/
def derive_entry_url_path (entry_file root : List String) : Option String :=
  if path_starts_with entry_file root then
    some ("/" ++ strJoinSep "/"
      ((entry_file.drop root.length).map percent_encode_segment))
  else none

/-- The upward walk of `serve.rs::nearest_existing_parent`; the fuel is
the length of the starting path, which bounds the number of `parent()`
steps before the path empties. -/
def nearestParentGo (st : AppState) (fs : Fs) : Nat → List String → List String
  | 0, _ => st.canonical_root
  | _, [] => st.canonical_root
  | fuel + 1, candidate =>
    let cand2 := candidate.dropLast
    if cand2.isEmpty then st.canonical_root
    else
      let isDirHere := match fs.metadata cand2 with
        | some m => m.isDir
        | none => false
      if isDirHere then
        match fs.canonicalize cand2 with
        | some canon =>
          if path_starts_with canon st.canonical_root then canon
          else nearestParentGo st fs fuel cand2
        | none => nearestParentGo st fs fuel cand2
      else nearestParentGo st fs fuel cand2

/-- `serve.rs::nearest_existing_parent`. -/
def nearest_existing_parent (st : AppState) (fs : Fs) (norm : List String) :
    List String :=
  nearestParentGo st fs (st.serve_root ++ norm).length (st.serve_root ++ norm)

/-- `serve.rs::rich_not_found_response`: 404 HTML page with recovery links
and the nearest-parent mini listing. -/
def rich_not_found_response (st : AppState) (fs : Fs) (norm : List String) :
    Response :=
  let norm_display := strJoinSep "/" norm
  let requested_path := "/" ++ norm_display
  let nearest_parent := nearest_existing_parent st fs norm
  let parent_url0 := (derive_entry_url_path nearest_parent st.canonical_root).getD "/"
  let parent_url := if parent_url0 = "/" then "/" else parent_url0 ++ "/"
  let listing_html := build_nearest_parent_listing st fs nearest_parent parent_url
  let requested_escaped := html_escape_text requested_path
  let parent_url_escaped := html_escape_text parent_url
  let entry_url_escaped := html_escape_text st.entry_url_path
  let body := "<!DOCTYPE html><html lang=\"en\"><head><meta charset=\"utf-8\"><title>404 Not Found</title><link rel=\"stylesheet\" href=\"/assets/mdmd.css\"></head><body><main class=\"content\"><h1>404 Not Found</h1><p>The requested path was not found:</p><pre><code>"
    ++ requested_escaped
    ++ "</code></pre><h2>Recovery options</h2><ul><li><a href=\"/\">Root index</a></li><li><a href=\""
    ++ entry_url_escaped
    ++ "\">Entry document</a></li><li><a href=\"" ++ parent_url_escaped
    ++ "\">Nearest parent: " ++ parent_url_escaped ++ "</a></li></ul>"
    ++ listing_html ++ "</main></body></html>"
  ⟨404,
    [("Content-Type", "text/html; charset=utf-8"),
     ("X-Content-Type-Options", "nosniff")],
    utf8_bytes body⟩

/-! ## serve.rs: candidate resolution and the request handler -/

/-- `metadata(p).map(|m| m.is_file()).unwrap_or(false)`. -/
def metaIsFile (fs : Fs) (p : List String) : Bool :=
  match fs.metadata p with
  | some m => m.isFile
  | none => false

/-- The extensionless fallback of `resolve_candidate`. -/
def resolveExtensionless (fs : Fs) (candidate : List String) :
    Option (List String × String) :=
  if (pathExt candidate).isNone then
    let with_md := withExtMd candidate
    if metaIsFile fs with_md then some (with_md, "extensionless") else none
  else none

/-- `serve.rs::resolve_candidate`: exact file, else directory `README.md`
then `index.md` (a directory never falls through to the extensionless
branch), else `candidate.md` when the candidate has no extension. -/
def resolve_candidate (fs : Fs) (candidate : List String) :
    Option (List String × String) :=
  match fs.metadata candidate with
  | some m =>
    if m.isFile then some (candidate, "exact")
    else if m.isDir then
      let readme := candidate ++ ["README.md"]
      if metaIsFile fs readme then some (readme, "readme")
      else
        let idx := candidate ++ ["index.md"]
        if metaIsFile fs idx then some (idx, "index")
        else none
    else resolveExtensionless fs candidate
  | none => resolveExtensionless fs candidate

/-- `mtime.and_then(format_http_date).unwrap_or(epoch string)`; the
source's `format_http_date` never fails. -/
def http_date_or_epoch (o : Oracle) (mtime : Option Nat) : String :=
  match mtime with
  | some t => o.fmt_http_date t
  | none => "Thu, 01 Jan 1970 00:00:00 GMT"

/-- The conditional-request block repeated verbatim before every 200 in
`serve_handler` (and in the asset branches, where `mtime` is always
present): `If-None-Match` first, and only in its absence
`If-Modified-Since`. -/
def cache_check (o : Oracle) (inm ims : Option String) (etag lm : String)
    (mtime : Option Nat) (full : Response) : Response :=
  match inm with
  | some s => if etag_matches s etag then not_modified_response etag lm else full
  | none =>
    match ims with
    | some s =>
      match mtime with
      | some mt =>
        if not_modified_since o.parse_http_date s mt then
          not_modified_response etag lm
        else full
      | none => full
    | none => full

/-- Step 7 of `serve_handler`: dispatch on the canonical path's extension
(`md` case-insensitively rendered or raw, anything else static). -/
def serveDispatch (o : Oracle) (fs : Fs) (req : Request)
    (canonical : List String) (file_meta : FsMeta) : Response :=
  let mtime := file_meta.mtime
  let ext := (pathExt canonical).getD ""
  if eq_ignore_ascii_case ext "md" then
    match fs.readToString canonical with
    | none => not_found_response
    | some content =>
      if is_raw_mode req.query then
        let etag := compute_etag (utf8_bytes content)
        let lm := http_date_or_epoch o mtime
        cache_check o req.if_none_match req.if_modified_since etag lm mtime
          ⟨200,
            [("Content-Type", "text/plain; charset=utf-8"),
             ("X-Content-Type-Options", "nosniff"),
             ("ETag", etag), ("Last-Modified", lm)],
            utf8_bytes content⟩
      else
        let page := o.render_page content canonical
        let etag := compute_etag (utf8_bytes page)
        let lm := http_date_or_epoch o mtime
        cache_check o req.if_none_match req.if_modified_since etag lm mtime
          ⟨200,
            [("Content-Type", "text/html; charset=utf-8"),
             ("X-Content-Type-Options", "nosniff"),
             ("ETag", etag), ("Last-Modified", lm)],
            utf8_bytes page⟩
  else
    match fs.readBytes canonical with
    | none => not_found_response
    | some bytes =>
      let etag := compute_etag bytes
      let lm := http_date_or_epoch o mtime
      cache_check o req.if_none_match req.if_modified_since etag lm mtime
        ⟨200,
          [("Content-Type", mime_for_ext ext),
           ("X-Content-Type-Options", "nosniff"),
           ("ETag", etag), ("Last-Modified", lm)],
          bytes⟩

/-- `serve.rs::serve_handler`: asset early exits, percent-decode, null-byte
rejection, normalization, root early exit, candidate resolution with the
directory-listing and rich-404 fallbacks, canonicalization + containment,
size guard, then dispatch. -/
def serve_handler (o : Oracle) (st : AppState) (fs : Fs) (req : Request) :
    Response :=
  if req.path = "/assets/mdmd.css" then
    let lm := o.fmt_http_date st.asset_mtime
    cache_check o req.if_none_match req.if_modified_since st.css_etag lm
      (some st.asset_mtime)
      ⟨200,
        [("Content-Type", "text/css; charset=utf-8"),
         ("X-Content-Type-Options", "nosniff"),
         ("ETag", st.css_etag), ("Last-Modified", lm)],
        st.css_bytes⟩
  else if req.path = "/assets/mdmd.js" then
    let lm := o.fmt_http_date st.asset_mtime
    cache_check o req.if_none_match req.if_modified_since st.js_etag lm
      (some st.asset_mtime)
      ⟨200,
        [("Content-Type", "text/javascript; charset=utf-8"),
         ("X-Content-Type-Options", "nosniff"),
         ("ETag", st.js_etag), ("Last-Modified", lm)],
        st.js_bytes⟩
  else
    match percent_decode req.path with
    | none => not_found_response
    | some decoded =>
      if strContainsChar (Char.ofNat 0) decoded then not_found_response
      else
        match normalize_path decoded with
        | none => not_found_response
        | some normalized =>
          if normalized = [] then
            render_directory_index_response st fs st.canonical_root "/"
          else
            let norm_display := strJoinSep "/" normalized
            let candidate := st.serve_root ++ normalized
            match resolve_candidate fs candidate with
            | none =>
              match fs.metadata candidate with
              | some m =>
                if m.isDir then
                  render_directory_index_response st fs candidate
                    ("/" ++ norm_display)
                else rich_not_found_response st fs normalized
              | none => rich_not_found_response st fs normalized
            | some (resolved, _branch) =>
              match fs.canonicalize resolved with
              | none => not_found_response
              | some canonical =>
                if !path_starts_with canonical st.canonical_root then
                  not_found_response
                else
                  match fs.metadata canonical with
                  | none => not_found_response
                  | some file_meta =>
                    if MAX_FILE_SIZE < file_meta.size then
                      too_large_response norm_display file_meta.size
                    else serveDispatch o fs req canonical file_meta

/-! ## serve.rs: freshness endpoint -/

/-- Rust `param.splitn(2, '=')`: the text before the first `=` and,
when an `=` exists, everything after it. -/
def splitN2Eq (param : String) : String × Option String :=
  match strSplit '=' param with
  | [] => (param, none)
  | [a] => (a, none)
  | a :: rest => (a, some (strJoinSep "=" rest))

/-- The `path` query-parameter extraction of `freshness_handler`. -/
def freshness_query_path (query : String) : String :=
  ((strSplit '&' query).findSome? fun param =>
    match splitN2Eq param with
    | ("path", some v) => some v
    | _ => none).getD ""

/-- `serve.rs::freshness_404`: JSON 404 for every error case. -/
def freshness_404 : Response :=
  ⟨404,
    [("Content-Type", "application/json"),
     ("X-Content-Type-Options", "nosniff")],
    utf8_bytes "\x7b\"error\":\"not found\"\x7d"⟩

/-- `serve.rs::freshness_handler`: same decode–normalize–canonicalize–
contain pipeline against the `path` query parameter, then a 200 JSON body
`{"mtime":<secs>}` whose headers are only `Content-Type` and
`X-Content-Type-Options`. -/
def freshness_handler (st : AppState) (fs : Fs) (query : String) : Response :=
  let path_raw := freshness_query_path query
  match percent_decode path_raw with
  | none => freshness_404
  | some decoded =>
    if strContainsChar (Char.ofNat 0) decoded then freshness_404
    else
      match normalize_path decoded with
      | none => freshness_404
      | some normalized =>
        if normalized = [] then freshness_404
        else
          let candidate := st.canonical_root ++ normalized
          match fs.canonicalize candidate with
          | none => freshness_404
          | some canonical =>
            if !path_starts_with canonical st.canonical_root then freshness_404
            else
              match fs.metadata canonical with
              | none => freshness_404
              | some meta =>
                let mtime_secs := ((meta.mtime.map fun t => t / 1000000000).getD 0)
                ⟨200,
                  [("Content-Type", "application/json"),
                   ("X-Content-Type-Options", "nosniff")],
                  utf8_bytes ("\x7b\"mtime\":" ++ natDecimal mtime_secs ++ "\x7d")⟩

/-! ## backlinks.rs: index inversion -/

/-- `backlinks.rs::BacklinkRef`. -/
structure BacklinkRef where
  source_url_path : String
  source_display : String
  snippet : String
  target_fragment : Option String
  deriving DecidableEq, Repr

/-- `backlinks.rs::OutboundRef`. -/
structure OutboundRef where
  target_url_path : String
  target_fragment : Option String
  snippet : String
  deriving DecidableEq, Repr

/-- One markdown source document as seen by the index-build loop after
extraction: its URL key, its display name, and its outbound references in
discovery order. -/
structure DocSource where
  source_url_path : String
  source_display : String
  outbound_refs : List OutboundRef
  deriving DecidableEq, Repr

/-- The per-document inversion loop of `build_backlinks_index`
(lines 174–193): skip self-links, skip targets already seen for this
source (`seen_targets`), else record the edge. -/
def docEdgesGo (source display : String) :
    List OutboundRef → List String → List (String × BacklinkRef)
  | [], _ => []
  | o :: rest, seen =>
    if o.target_url_path = source then docEdgesGo source display rest seen
    else if seen.any (fun x => x = o.target_url_path) then docEdgesGo source display rest seen
    else
      (o.target_url_path,
        ⟨source, display, o.snippet, o.target_fragment⟩) ::
        docEdgesGo source display rest (o.target_url_path :: seen)

/-- `backlinks.rs::build_backlinks_index`, over the list of markdown
documents the directory walk visits (each file exactly once).  The
`HashMap<String, Vec<BacklinkRef>>` is modelled by the list of keyed
insertions in program order; a key's vector is recovered by
`indexLookup`. -/
def build_backlinks_index (docs : List DocSource) : List (String × BacklinkRef) :=
  (docs.map fun d => docEdgesGo d.source_url_path d.source_display d.outbound_refs []).flatten

/-- The `Vec<BacklinkRef>` stored under key `k`: all insertions under `k`,
in push order. -/
def indexLookup (idx : List (String × BacklinkRef)) (k : String) :
    List BacklinkRef :=
  (idx.filter fun e => e.1 = k).map fun e => e.2

/-- The extension filter of the backlinks walk (lines 129–135): only `md`
and `markdown`, case-sensitively. -/
def indexer_ext_ok (ext : String) : Bool :=
  ext = "md" || ext = "markdown"

/-- Whether the backlinks walk processes a file with the given name:
`path.extension().and_then(|e| e.to_str()).unwrap_or("")` then the
`matches!` test. -/
def indexer_processes_file (name : String) : Bool :=
  indexer_ext_ok ((fileExt name).getD "")

/-! ## html.rs: slugs and heading anchors -/

/-- `html.rs::HeadingEntry`. -/
structure HeadingEntry where
  level : Nat
  text : String
  anchor_id : String
  deriving DecidableEq, Repr

/-- The character loop of `html.rs::slugify`: alphanumerics pass, space/
hyphen/underscore become `-` without creating a run, everything else is
dropped. -/
def slugifyCore (cs : List Char) : List Char :=
  cs.foldl (fun slug c =>
    if isAsciiAlphanumChar c then slug ++ [c]
    else if c = ' ' ∨ c = '-' ∨ c = '_' then
      if slug.getLast? = some '-' then slug else slug ++ ['-']
    else slug) []

/-- `trim_matches('-')`. -/
def trimHyphens (cs : List Char) : List Char :=
  ((cs.dropWhile fun c => c = '-').reverse.dropWhile fun c => c = '-').reverse

/-- `html.rs::slugify`. -/
def slugify (text : String) : String :=
  String.mk (trimHyphens (slugifyCore (strLower text).data))

/-- Pointwise update of the counter map (`HashMap::entry` + assignment). -/
def updateCounter (counter : String → Nat) (s : String) (v : Nat) :
    String → Nat :=
  fun x => if x = s then v else counter x

/-- The heading-extraction loop of `html.rs::render_markdown` (lines
379–409) over the document's headings `(level, flattened text)` in
order: first occurrence of a base slug gets the bare slug and sets its
counter to 1, later occurrences get `slug-n` and increment.  `counter s =
0` models a key absent from `slug_counter` (`or_insert(0)`). -/
def extractHeadingsGo (counter : String → Nat) :
    List (Nat × String) → List HeadingEntry
  | [] => []
  | (lv, t) :: rest =>
    let base_slug := slugify t
    let c := counter base_slug
    if c = 0 then
      ⟨lv, t, base_slug⟩ ::
        extractHeadingsGo (updateCounter counter base_slug 1) rest
    else
      ⟨lv, t, base_slug ++ "-" ++ natDecimal c⟩ ::
        extractHeadingsGo (updateCounter counter base_slug (c + 1)) rest

/-- The heading entries `render_markdown` produces for a document whose
headings (in AST order) are the given `(level, flattened text)` pairs; the
comrak parse that yields those pairs is outside the model. -/
def render_markdown_headings (headings : List (Nat × String)) :
    List HeadingEntry :=
  extractHeadingsGo (fun _ => 0) headings

/-- Number of earlier headings whose base slug equals `s` — the spec-side
counter. -/
def specCountPrior (prior : List (Nat × String)) (s : String) : Nat :=
  (prior.filter fun u => slugify u.2 = s).length

/-- Modelled from the spec (§4.2 deduplication rule): the anchor a heading
receives, given the headings before it — the bare slug on first
occurrence, `slug-(N)` for the Nth repetition. -/
def spec_anchor (prior : List (Nat × String)) (t : String) : String :=
  let s := slugify t
  let c := specCountPrior prior s
  if c = 0 then s else s ++ "-" ++ natDecimal c

/-- Spec-side anchor assignment, accumulating the processed heading list. -/
def specHeadingsGo (prior : List (Nat × String)) :
    List (Nat × String) → List HeadingEntry
  | [] => []
  | (lv, t) :: rest =>
    ⟨lv, t, spec_anchor prior t⟩ :: specHeadingsGo (prior ++ [(lv, t)]) rest

/-- Modelled from the spec: anchors computed by per-position counting. -/
def spec_heading_anchors (hs : List (Nat × String)) : List HeadingEntry :=
  specHeadingsGo [] hs

/-! ## Concrete evaluation fixtures

A small filesystem snapshot used to instantiate the universally
quantified theorems below on concrete inputs.  The serve root is
`/root`; `evil.md` is an in-tree symlink whose canonical target
`/etc/passwd` lies outside the root. -/

/-- A sample oracle: the date parser recognises one fixed date string. -/
def sampleOracle : Oracle where
  parse_http_date := fun s =>
    if s = "Thu, 01 Jan 1970 00:00:02 GMT" then some 2 else none
  fmt_http_date := fun _ => "Thu, 01 Jan 1970 00:00:01 GMT"
  render_page := fun content _ => content

/-- A sample application state rooted at `/root`. -/
def sampleState : AppState where
  serve_root := ["root"]
  canonical_root := ["root"]
  entry_url_path := "/a.md"
  css_etag := "\"00000000000000aa\""
  js_etag := "\"00000000000000bb\""
  asset_mtime := 7
  css_bytes := []
  js_bytes := []

/-- A sample filesystem snapshot under `/root`. -/
def sampleFs : Fs where
  metadata := fun p =>
    if p = ["root", "a.md"] then some ⟨true, false, 5, some 1500000000⟩
    else if p = ["root", "docs"] then some ⟨false, true, 0, none⟩
    else if p = ["root", "big.bin"] then some ⟨true, false, 16777217, some 1500000000⟩
    else if p = ["root", "ok.bin"] then some ⟨true, false, 16777216, some 1500000000⟩
    else if p = ["root", "notes.markdown"] then some ⟨true, false, 3, none⟩
    else if p = ["root", "evil.md"] then some ⟨true, false, 4, none⟩
    else if p = ["root"] then some ⟨false, true, 0, none⟩
    else none
  canonicalize := fun p =>
    if p = ["root", "evil.md"] then some ["etc", "passwd"]
    else if p = ["root", "a.md"] ∨ p = ["root", "big.bin"] ∨ p = ["root", "ok.bin"]
        ∨ p = ["root", "notes.markdown"] then some p
    else none
  readToString := fun p => if p = ["root", "a.md"] then some "# Hi" else none
  readBytes := fun p =>
    if p = ["root", "notes.markdown"] then some [104, 105, 10]
    else if p = ["root", "ok.bin"] then some [1, 2, 3]
    else if p = ["root", "big.bin"] then some [9]
    else none
  readDir := fun p =>
    if p = ["root", "docs"] then some []
    else if p = ["root"] then some [⟨"a.md", false, none, some false⟩]
    else none

/-! ## Helper lemmas -/

/-- `cache_check` returns either the 304 response or the given full
response. -/
theorem cache_check_eq_or (o : Oracle) (inm ims : Option String)
    (etag lm : String) (mt : Option Nat) (full : Response) :
    cache_check o inm ims etag lm mt full = not_modified_response etag lm ∨
      cache_check o inm ims etag lm mt full = full := by
  unfold cache_check
  cases inm with
  | some s =>
    by_cases h : etag_matches s etag <;> simp [h]
  | none =>
    cases ims with
    | some s =>
      cases mt with
      | some m =>
        by_cases h : not_modified_since o.parse_http_date s m <;> simp [h]
      | none => simp
    | none => simp

/-- A 304 from `cache_check` never has status 200 or 413. -/
theorem cache_check_status (o : Oracle) (inm ims : Option String)
    (etag lm : String) (mt : Option Nat) (full : Response) :
    (cache_check o inm ims etag lm mt full).status = 304 ∨
      (cache_check o inm ims etag lm mt full).status = full.status := by
  rcases cache_check_eq_or o inm ims etag lm mt full with h | h <;>
    rw [h] <;> simp [not_modified_response]

/-- With both conditional headers absent, `cache_check` is the full
response. -/
theorem cache_check_none_none (o : Oracle) (etag lm : String)
    (mt : Option Nat) (full : Response) :
    cache_check o none none etag lm mt full = full := rfl

/-- String append: empty right identity. -/
theorem str_append_nil (s : String) : s ++ "" = s := by
  cases s
  show String.mk _ = _
  simp [String.append]

/-- String append: empty left identity. -/
theorem str_nil_append (s : String) : "" ++ s = s := by
  cases s
  show String.mk _ = _
  simp [String.append]

/-- String append is associative. -/
theorem str_append_assoc (a b c : String) : a ++ b ++ c = a ++ (b ++ c) := by
  cases a
  cases b
  cases c
  show String.mk _ = String.mk _
  simp [String.append]

/-- The data of an append is the append of the data. -/
theorem str_data_append (a b : String) : (a ++ b).data = a.data ++ b.data := by
  cases a
  cases b
  rfl

/-- A left fold that only appends to its accumulator factors through the
empty accumulator. -/
theorem foldl_append_shift {α : Type} (g : α → String) :
    ∀ (es : List α) (acc : String),
      es.foldl (fun a e => a ++ g e) acc =
        acc ++ es.foldl (fun a e => a ++ g e) "" := by
  intro es
  induction es with
  | nil => intro acc; simp [str_append_nil]
  | cons e es ih =>
    intro acc
    rw [List.foldl_cons, List.foldl_cons, ih (acc ++ g e), ih ("" ++ g e),
      str_nil_append, str_append_assoc]

/-- The directory-index body decomposed around its `<h1>` heading. -/
theorem dir_index_body_decomp (up : String) (es : List (String × Bool)) :
    (dir_index_body up es).data =
      (("<!DOCTYPE html><html lang=\"en\"><head><meta charset=\"utf-8\"><title>Index of ").data
        ++ up.data ++ ("</title></head><body><nav>").data
        ++ (build_breadcrumbs up).data ++ ("</nav>").data)
      ++ (("<h1>Index of ").data ++ up.data ++ ("</h1>").data)
      ++ (("<ul>").data
        ++ (es.foldl (fun a e =>
            a ++ dirItemHtml (if strLastIs '/' up then up else up ++ "/") e)
            "").data
        ++ ("</ul></body></html>").data) := by
  unfold dir_index_body
  dsimp only
  rw [foldl_append_shift]
  simp only [str_data_append, List.append_assoc, List.cons_append,
    List.nil_append]

/-- `cache_check` preserves "status is not 413" of the full response. -/
theorem cache_check_status_ne_413 (o : Oracle) (inm ims : Option String)
    (etag lm : String) (mt : Option Nat) (full : Response)
    (h : full.status ≠ 413) :
    (cache_check o inm ims etag lm mt full).status ≠ 413 := by
  rcases cache_check_eq_or o inm ims etag lm mt full with he | he <;> rw [he]
  · show (304 : Nat) ≠ 413
    decide
  · exact h

/-- The dispatch step never produces a 413: it returns 404, 304 or the
200 full response. -/
theorem serveDispatch_status_ne_413 (o : Oracle) (fs : Fs) (req : Request)
    (canonical : List String) (meta : FsMeta) :
    (serveDispatch o fs req canonical meta).status ≠ 413 := by
  unfold serveDispatch
  by_cases hmd : eq_ignore_ascii_case ((pathExt canonical).getD "") "md"
  · simp only [hmd, if_true]
    cases hr : fs.readToString canonical with
    | none =>
      show not_found_response.status ≠ 413
      decide
    | some content =>
      by_cases hraw : is_raw_mode req.query
      · simp only [hraw, if_true]
        apply cache_check_status_ne_413
        show (200 : Nat) ≠ 413
        decide
      · simp only [hraw, Bool.false_eq_true, if_false]
        apply cache_check_status_ne_413
        show (200 : Nat) ≠ 413
        decide
  · simp only [hmd, Bool.false_eq_true, if_false]
    cases hr : fs.readBytes canonical with
    | none =>
      show not_found_response.status ≠ 413
      decide
    | some bytes =>
      apply cache_check_status_ne_413
      show (200 : Nat) ≠ 413
      decide

/-! ## Claim theorems -/

/-- C1: a request whose percent-decoded path fails stack normalization
(a `..` popping an empty stack), or whose resolved file's canonical path
does not start with the canonical root, gets the terse `not_found_response`
with status 404 (never 200). -/
theorem c1_traversal_and_containment_denied :
    (∀ (o : Oracle) (st : AppState) (fs : Fs) (req : Request) (decoded : String),
      req.path ≠ "/assets/mdmd.css" → req.path ≠ "/assets/mdmd.js" →
      percent_decode req.path = some decoded →
      normalize_path decoded = none →
      serve_handler o st fs req = not_found_response ∧
        (serve_handler o st fs req).status = 404) ∧
    (∀ (o : Oracle) (st : AppState) (fs : Fs) (req : Request)
      (decoded : String) (normalized resolved : List String) (branch : String)
      (canonical : List String),
      req.path ≠ "/assets/mdmd.css" → req.path ≠ "/assets/mdmd.js" →
      percent_decode req.path = some decoded →
      strContainsChar (Char.ofNat 0) decoded = false →
      normalize_path decoded = some normalized →
      normalized ≠ [] →
      resolve_candidate fs (st.serve_root ++ normalized) = some (resolved, branch) →
      fs.canonicalize resolved = some canonical →
      path_starts_with canonical st.canonical_root = false →
      serve_handler o st fs req = not_found_response ∧
        (serve_handler o st fs req).status = 404) := by
  constructor
  · intro o st fs req decoded h1 h2 h3 h5
    have he : serve_handler o st fs req = not_found_response := by
      unfold serve_handler
      rw [if_neg h1, if_neg h2, h3]
      by_cases hc : strContainsChar (Char.ofNat 0) decoded <;> simp [hc, h5]
    exact ⟨he, by rw [he]; rfl⟩
  · intro o st fs req decoded normalized resolved branch canonical
      h1 h2 h3 h4 h5 h6 h7 h8 h9
    have he : serve_handler o st fs req = not_found_response := by
      unfold serve_handler
      rw [if_neg h1, if_neg h2, h3]
      simp only [h4, Bool.false_eq_true, if_false, h5]
      rw [if_neg h6]
      simp only [h7, h8, h9]
      rfl
    exact ⟨he, by rw [he]; rfl⟩

/-- Witness for C1: the traversal request `GET /../etc/passwd` and the
out-of-root symlink request `GET /evil.md` both produce the terse 404 on
the sample filesystem. -/
theorem c1_traversal_and_containment_denied_witness :
    serve_handler sampleOracle sampleState sampleFs
        ⟨"/../etc/passwd", "", none, none⟩ = not_found_response ∧
      serve_handler sampleOracle sampleState sampleFs
        ⟨"/evil.md", "", none, none⟩ = not_found_response := by
  constructor
  · exact (c1_traversal_and_containment_denied.1 sampleOracle sampleState
      sampleFs ⟨"/../etc/passwd", "", none, none⟩ "/../etc/passwd"
      (by decide) (by decide) (by decide) (by decide)).1
  · exact (c1_traversal_and_containment_denied.2 sampleOracle sampleState
      sampleFs ⟨"/evil.md", "", none, none⟩ "/evil.md" ["evil.md"]
      ["root", "evil.md"] "exact" ["etc", "passwd"]
      (by decide) (by decide) (by decide) (by decide) (by decide)
      (by decide) (by decide) (by decide) (by decide)).1

/-- When the pipeline resolves a file (decode, normalize, candidate,
canonicalize and containment all succeed), the handler reduces to the size
guard followed by dispatch. -/
theorem serve_handler_size_stage (o : Oracle) (st : AppState) (fs : Fs)
    (req : Request) (decoded : String) (normalized resolved : List String)
    (branch : String) (canonical : List String) (meta : FsMeta)
    (h1 : req.path ≠ "/assets/mdmd.css") (h2 : req.path ≠ "/assets/mdmd.js")
    (h3 : percent_decode req.path = some decoded)
    (h4 : strContainsChar (Char.ofNat 0) decoded = false)
    (h5 : normalize_path decoded = some normalized)
    (h6 : normalized ≠ [])
    (h7 : resolve_candidate fs (st.serve_root ++ normalized) = some (resolved, branch))
    (h8 : fs.canonicalize resolved = some canonical)
    (h9 : path_starts_with canonical st.canonical_root = true)
    (h10 : fs.metadata canonical = some meta) :
    serve_handler o st fs req =
      if MAX_FILE_SIZE < meta.size then
        too_large_response (strJoinSep "/" normalized) meta.size
      else serveDispatch o fs req canonical meta := by
  unfold serve_handler
  rw [if_neg h1, if_neg h2, h3]
  simp only [h4, Bool.false_eq_true, if_false, h5]
  rw [if_neg h6]
  simp only [h7, h8, h9, h10]
  rfl

/-- Each non-200 response builder's status, by computation. -/
theorem not_found_response_status : not_found_response.status = 404 := rfl

/-- The rich 404 page has status 404. -/
theorem rich_not_found_response_status (st : AppState) (fs : Fs)
    (n : List String) : (rich_not_found_response st fs n).status = 404 := rfl

/-- The 413 response has status 413. -/
theorem too_large_response_status (nd : String) (s : Nat) :
    (too_large_response nd s).status = 413 := rfl

/-- The directory-index renderer returns either the terse 404 or a 200
response carrying exactly `Content-Type`, `X-Content-Type-Options` and
`ETag`. -/
theorem render_dir_outcomes (st : AppState) (fs : Fs) (dp : List String)
    (up : String) :
    render_directory_index_response st fs dp up = not_found_response ∨
      ((render_directory_index_response st fs dp up).status = 200 ∧
        (render_directory_index_response st fs dp up).hasHeader
          "X-Content-Type-Options" = true ∧
        (render_directory_index_response st fs dp up).hasHeader "ETag" = true ∧
        (render_directory_index_response st fs dp up).hasHeader
          "Last-Modified" = false) := by
  unfold render_directory_index_response
  cases hr : fs.readDir dp with
  | none => exact Or.inl rfl
  | some listing => exact Or.inr ⟨rfl, rfl, rfl, rfl⟩

/-- The dispatch step returns 404, a 304, or a 200 whose headers are
exactly `Content-Type`, `X-Content-Type-Options: nosniff`, `ETag`,
`Last-Modified`. -/
theorem serveDispatch_outcomes (o : Oracle) (fs : Fs) (req : Request)
    (canonical : List String) (meta : FsMeta) :
    serveDispatch o fs req canonical meta = not_found_response ∨
      (∃ e lm, serveDispatch o fs req canonical meta =
        not_modified_response e lm) ∨
      (∃ ct e lm body, serveDispatch o fs req canonical meta =
        ⟨200,
          [("Content-Type", ct), ("X-Content-Type-Options", "nosniff"),
           ("ETag", e), ("Last-Modified", lm)],
          body⟩) := by
  unfold serveDispatch
  by_cases hmd : eq_ignore_ascii_case ((pathExt canonical).getD "") "md"
  · simp only [hmd, if_true]
    cases hr : fs.readToString canonical with
    | none => exact Or.inl rfl
    | some content =>
      by_cases hraw : is_raw_mode req.query
      · simp only [hraw, if_true]
        rcases cache_check_eq_or o req.if_none_match req.if_modified_since
          (compute_etag (utf8_bytes content)) (http_date_or_epoch o meta.mtime)
          meta.mtime _ with h | h
        · exact Or.inr (Or.inl ⟨_, _, h⟩)
        · exact Or.inr (Or.inr ⟨_, _, _, _, h⟩)
      · simp only [hraw, Bool.false_eq_true, if_false]
        rcases cache_check_eq_or o req.if_none_match req.if_modified_since
          (compute_etag (utf8_bytes (o.render_page content canonical)))
          (http_date_or_epoch o meta.mtime) meta.mtime _ with h | h
        · exact Or.inr (Or.inl ⟨_, _, h⟩)
        · exact Or.inr (Or.inr ⟨_, _, _, _, h⟩)
  · simp only [hmd, Bool.false_eq_true, if_false]
    cases hr : fs.readBytes canonical with
    | none => exact Or.inl rfl
    | some bytes =>
      rcases cache_check_eq_or o req.if_none_match req.if_modified_since
        (compute_etag bytes) (http_date_or_epoch o meta.mtime)
        meta.mtime _ with h | h
      · exact Or.inr (Or.inl ⟨_, _, h⟩)
      · exact Or.inr (Or.inr ⟨_, _, _, _, h⟩)

/-- Enumeration of every response `serve_handler` can produce: 304, terse
404, rich 404, 413, directory index, or a 200 with the standard header
block. -/
theorem serve_handler_outcomes (o : Oracle) (st : AppState) (fs : Fs)
    (req : Request) :
    (∃ e lm, serve_handler o st fs req = not_modified_response e lm) ∨
      serve_handler o st fs req = not_found_response ∨
      (∃ n, serve_handler o st fs req = rich_not_found_response st fs n) ∨
      (∃ nd s, serve_handler o st fs req = too_large_response nd s) ∨
      (∃ dp up, serve_handler o st fs req =
        render_directory_index_response st fs dp up) ∨
      (∃ ct e lm body, serve_handler o st fs req =
        ⟨200,
          [("Content-Type", ct), ("X-Content-Type-Options", "nosniff"),
           ("ETag", e), ("Last-Modified", lm)],
          body⟩) := by
  unfold serve_handler
  by_cases hcss : req.path = "/assets/mdmd.css"
  · simp only [hcss, if_true]
    rcases cache_check_eq_or o req.if_none_match req.if_modified_since
      st.css_etag (o.fmt_http_date st.asset_mtime) (some st.asset_mtime)
      _ with h | h
    · exact Or.inl ⟨_, _, h⟩
    · exact Or.inr (Or.inr (Or.inr (Or.inr (Or.inr ⟨_, _, _, _, h⟩))))
  · simp only [hcss, if_false]
    by_cases hjs : req.path = "/assets/mdmd.js"
    · simp only [hjs, if_true]
      rcases cache_check_eq_or o req.if_none_match req.if_modified_since
        st.js_etag (o.fmt_http_date st.asset_mtime) (some st.asset_mtime)
        _ with h | h
      · exact Or.inl ⟨_, _, h⟩
      · exact Or.inr (Or.inr (Or.inr (Or.inr (Or.inr ⟨_, _, _, _, h⟩))))
    · simp only [hjs, if_false]
      cases hd : percent_decode req.path with
      | none => exact Or.inr (Or.inl rfl)
      | some decoded =>
        by_cases h0 : strContainsChar (Char.ofNat 0) decoded
        · simp only [h0, if_true]
          exact Or.inr (Or.inl trivial)
        · simp only [h0, Bool.false_eq_true, if_false]
          cases hn : normalize_path decoded with
          | none => exact Or.inr (Or.inl rfl)
          | some normalized =>
            by_cases hroot : normalized = []
            · simp only [hroot, if_true]
              exact Or.inr (Or.inr (Or.inr (Or.inr (Or.inl ⟨_, _, rfl⟩))))
            · simp only [hroot, if_false]
              cases hres : resolve_candidate fs (st.serve_root ++ normalized) with
              | none =>
                cases hm : fs.metadata (st.serve_root ++ normalized) with
                | none => exact Or.inr (Or.inr (Or.inl ⟨_, rfl⟩))
                | some m =>
                  by_cases hdir : m.isDir
                  · simp only [hdir, if_true]
                    exact Or.inr (Or.inr (Or.inr (Or.inr (Or.inl ⟨_, _, rfl⟩))))
                  · simp only [hdir, Bool.false_eq_true, if_false]
                    exact Or.inr (Or.inr (Or.inl ⟨_, rfl⟩))
              | some rb =>
                obtain ⟨resolved, br⟩ := rb
                dsimp only
                cases hcan : fs.canonicalize resolved with
                | none => exact Or.inr (Or.inl rfl)
                | some canonical =>
                  by_cases hpre : path_starts_with canonical st.canonical_root
                  · simp only [hpre, Bool.not_true, Bool.false_eq_true, if_false]
                    cases hfm : fs.metadata canonical with
                    | none => exact Or.inr (Or.inl rfl)
                    | some meta =>
                      by_cases hsz : MAX_FILE_SIZE < meta.size
                      · simp only [hsz, if_true]
                        exact Or.inr (Or.inr (Or.inr (Or.inl ⟨_, _, rfl⟩)))
                      · simp only [hsz, if_false]
                        rcases serveDispatch_outcomes o fs req canonical meta with
                          h | ⟨e, lm, h⟩ | ⟨ct, e, lm, body, h⟩
                        · exact Or.inr (Or.inl h)
                        · exact Or.inl ⟨_, _, h⟩
                        · exact Or.inr (Or.inr (Or.inr (Or.inr (Or.inr
                            ⟨_, _, _, _, h⟩))))
                  · rw [Bool.not_eq_true] at hpre
                    simp only [hpre, Bool.not_false, if_true]
                    exact Or.inr (Or.inl trivial)

/-- The freshness handler returns the JSON 404 or the 200 JSON mtime
response whose headers are exactly `Content-Type` and
`X-Content-Type-Options`. -/
theorem freshness_outcomes (st : AppState) (fs : Fs) (q : String) :
    freshness_handler st fs q = freshness_404 ∨
      (∃ n, freshness_handler st fs q =
        ⟨200,
          [("Content-Type", "application/json"),
           ("X-Content-Type-Options", "nosniff")],
          utf8_bytes ("\x7b\"mtime\":" ++ natDecimal n ++ "\x7d")⟩) := by
  unfold freshness_handler
  dsimp only
  cases hd : percent_decode (freshness_query_path q) with
  | none => exact Or.inl rfl
  | some decoded =>
    by_cases h0 : strContainsChar (Char.ofNat 0) decoded
    · simp only [h0, if_true]
      exact Or.inl trivial
    · simp only [h0, Bool.false_eq_true, if_false]
      cases hn : normalize_path decoded with
      | none => exact Or.inl rfl
      | some normalized =>
        by_cases hroot : normalized = []
        · simp only [hroot, if_true]
          exact Or.inl trivial
        · simp only [hroot, if_false]
          cases hcan : fs.canonicalize (st.canonical_root ++ normalized) with
          | none => exact Or.inl rfl
          | some canonical =>
            by_cases hpre : path_starts_with canonical st.canonical_root
            · simp only [hpre, Bool.not_true, Bool.false_eq_true, if_false]
              cases hm : fs.metadata canonical with
              | none => exact Or.inl rfl
              | some meta => exact Or.inr ⟨_, rfl⟩
            · rw [Bool.not_eq_true] at hpre
              simp only [hpre, Bool.not_false, if_true]
              exact Or.inl trivial

/-- The 304 builder's status, by computation. -/
theorem not_modified_response_status (e lm : String) :
    (not_modified_response e lm).status = 304 := rfl

/-- C3: RFC 7232 ordering in the conditional block evaluated before every
full response.  A present `If-None-Match` that is `*` or whose
comma-separated whitespace-trimmed list contains the current ETag yields
the 304 with `ETag`, `Last-Modified` and empty body; with `If-None-Match`
absent, an `If-Modified-Since` that parses with the whole-second mtime at
or before it yields 304; a parse failure or absent headers yield the full
response; and the rendered-markdown branch of `serve_handler` consults
exactly this block. -/
theorem c3_conditional_request_ordering :
    (∀ (o : Oracle) (inm : String) (ims : Option String) (etag lm : String)
      (mt : Option Nat) (full : Response),
      (strTrim inm = "*" ∨
        ∃ e ∈ strSplit ',' (strTrim inm), strTrim e = etag) →
      cache_check o (some inm) ims etag lm mt full =
          not_modified_response etag lm ∧
        (not_modified_response etag lm).status = 304 ∧
        (not_modified_response etag lm).headers =
          [("ETag", etag), ("Last-Modified", lm)] ∧
        (not_modified_response etag lm).body = []) ∧
    (∀ (o : Oracle) (ims : String) (etag lm : String) (mt t : Nat)
      (full : Response),
      o.parse_http_date ims = some t →
      mt / 1000000000 ≤ t →
      cache_check o none (some ims) etag lm (some mt) full =
        not_modified_response etag lm) ∧
    (∀ (o : Oracle) (ims : String) (etag lm : String) (mt : Option Nat)
      (full : Response),
      o.parse_http_date ims = none →
      cache_check o none (some ims) etag lm mt full = full) ∧
    (∀ (o : Oracle) (etag lm : String) (mt : Option Nat) (full : Response),
      cache_check o none none etag lm mt full = full) ∧
    (∀ (o : Oracle) (st : AppState) (fs : Fs) (req : Request) (decoded : String)
      (normalized resolved : List String) (branch : String)
      (canonical : List String) (meta : FsMeta) (content : String),
      req.path ≠ "/assets/mdmd.css" → req.path ≠ "/assets/mdmd.js" →
      percent_decode req.path = some decoded →
      strContainsChar (Char.ofNat 0) decoded = false →
      normalize_path decoded = some normalized →
      normalized ≠ [] →
      resolve_candidate fs (st.serve_root ++ normalized) = some (resolved, branch) →
      fs.canonicalize resolved = some canonical →
      path_starts_with canonical st.canonical_root = true →
      fs.metadata canonical = some meta →
      meta.size ≤ MAX_FILE_SIZE →
      eq_ignore_ascii_case ((pathExt canonical).getD "") "md" = true →
      fs.readToString canonical = some content →
      is_raw_mode req.query = false →
      serve_handler o st fs req =
        cache_check o req.if_none_match req.if_modified_since
          (compute_etag (utf8_bytes (o.render_page content canonical)))
          (http_date_or_epoch o meta.mtime) meta.mtime
          ⟨200,
            [("Content-Type", "text/html; charset=utf-8"),
             ("X-Content-Type-Options", "nosniff"),
             ("ETag", compute_etag (utf8_bytes (o.render_page content canonical))),
             ("Last-Modified", http_date_or_epoch o meta.mtime)],
            utf8_bytes (o.render_page content canonical)⟩) := by
  refine ⟨?_, ?_, ?_, ?_, ?_⟩
  · intro o inm ims etag lm mt full hp
    have hm : etag_matches inm etag = true := by
      unfold etag_matches
      by_cases hstar : strTrim inm = "*"
      · simp [hstar]
      · rcases hp with h1 | ⟨e, he, het⟩
        · exact absurd h1 hstar
        · simp only [hstar, if_false, List.any_eq_true, decide_eq_true_eq]
          exact ⟨e, he, het⟩
    refine ⟨?_, rfl, rfl, rfl⟩
    unfold cache_check
    simp [hm]
  · intro o ims etag lm mt t full hparse hle
    have hnms : not_modified_since o.parse_http_date ims mt = true := by
      unfold not_modified_since
      rw [hparse]
      simp [hle]
    unfold cache_check
    simp [hnms]
  · intro o ims etag lm mt full hparse
    have hnms : ∀ m : Nat, not_modified_since o.parse_http_date ims m = false := by
      intro m
      unfold not_modified_since
      rw [hparse]
    unfold cache_check
    cases mt with
    | none => rfl
    | some m => simp [hnms m]
  · intro o etag lm mt full
    rfl
  · intro o st fs req decoded normalized resolved branch canonical meta content
      h1 h2 h3 h4 h5 h6 h7 h8 h9 h10 hsz hmd hread hraw
    rw [serve_handler_size_stage o st fs req decoded normalized resolved
      branch canonical meta h1 h2 h3 h4 h5 h6 h7 h8 h9 h10,
      if_neg (by omega)]
    unfold serveDispatch
    simp only [hmd, if_true, hread, hraw, Bool.false_eq_true, if_false]

/-- Witness for C3, on concrete header values and the sample `GET /a.md`:
a matching comma-separated `If-None-Match` 304s, a parsed
`If-Modified-Since` at or after the mtime 304s, a parse failure or absent
headers fall through to the full response, and the rendered branch of
`serve_handler` consults the block. -/
theorem c3_conditional_request_ordering_witness :
    cache_check sampleOracle (some " \"x\" , \"y\" ") none "\"y\"" "LM" none
        ⟨200, [], []⟩ = not_modified_response "\"y\"" "LM" ∧
      cache_check sampleOracle none (some "Thu, 01 Jan 1970 00:00:02 GMT")
        "\"y\"" "LM" (some 1500000000) ⟨200, [], []⟩ =
        not_modified_response "\"y\"" "LM" ∧
      cache_check sampleOracle none (some "nonsense") "\"y\"" "LM"
        (some 1500000000) ⟨200, [], []⟩ = ⟨200, [], []⟩ ∧
      cache_check sampleOracle none none "\"y\"" "LM" none ⟨200, [], []⟩ =
        ⟨200, [], []⟩ ∧
      serve_handler sampleOracle sampleState sampleFs
          ⟨"/a.md", "", some "*", none⟩ =
        cache_check sampleOracle (some "*") none
          (compute_etag (utf8_bytes "# Hi"))
          (http_date_or_epoch sampleOracle (some 1500000000))
          (some 1500000000)
          ⟨200,
            [("Content-Type", "text/html; charset=utf-8"),
             ("X-Content-Type-Options", "nosniff"),
             ("ETag", compute_etag (utf8_bytes "# Hi")),
             ("Last-Modified",
               http_date_or_epoch sampleOracle (some 1500000000))],
            utf8_bytes "# Hi"⟩ := by
  refine ⟨?_, ?_, ?_, ?_, ?_⟩
  · exact (c3_conditional_request_ordering.1 sampleOracle " \"x\" , \"y\" "
      none "\"y\"" "LM" none ⟨200, [], []⟩
      (Or.inr ⟨" \"y\"", by decide, by decide⟩)).1
  · exact c3_conditional_request_ordering.2.1 sampleOracle
      "Thu, 01 Jan 1970 00:00:02 GMT" "\"y\"" "LM" 1500000000 2 ⟨200, [], []⟩
      (by decide) (by decide)
  · exact c3_conditional_request_ordering.2.2.1 sampleOracle "nonsense"
      "\"y\"" "LM" (some 1500000000) ⟨200, [], []⟩ (by decide)
  · exact c3_conditional_request_ordering.2.2.2.1 sampleOracle "\"y\"" "LM"
      none ⟨200, [], []⟩
  · exact c3_conditional_request_ordering.2.2.2.2 sampleOracle sampleState
      sampleFs ⟨"/a.md", "", some "*", none⟩ "/a.md" ["a.md"]
      ["root", "a.md"] "exact" ["root", "a.md"]
      ⟨true, false, 5, some 1500000000⟩ "# Hi"
      (by decide) (by decide) (by decide) (by decide) (by decide) (by decide)
      (by decide) (by decide) (by decide) (by decide) (by decide) (by decide)
      (by decide) (by decide)

/-- C2 (amended): every 200 produced by `serve_handler` carries
`X-Content-Type-Options: nosniff` and an `ETag`; it also carries
`Last-Modified` unless it is a directory-index response, which omits it;
the freshness endpoint's 200 JSON response carries `nosniff` but neither
`ETag` nor `Last-Modified`. -/
theorem c2_200_header_invariants :
    (∀ (o : Oracle) (st : AppState) (fs : Fs) (req : Request),
      (serve_handler o st fs req).status = 200 →
      (serve_handler o st fs req).hasHeader "X-Content-Type-Options" = true ∧
        (serve_handler o st fs req).hasHeader "ETag" = true) ∧
    (∀ (o : Oracle) (st : AppState) (fs : Fs) (req : Request),
      (serve_handler o st fs req).status = 200 →
      (serve_handler o st fs req).hasHeader "Last-Modified" = true ∨
        ∃ dp up, serve_handler o st fs req =
          render_directory_index_response st fs dp up) ∧
    (∀ (st : AppState) (fs : Fs) (q : String),
      (freshness_handler st fs q).status = 200 →
      (freshness_handler st fs q).hasHeader "X-Content-Type-Options" = true ∧
        (freshness_handler st fs q).hasHeader "ETag" = false ∧
        (freshness_handler st fs q).hasHeader "Last-Modified" = false) := by
  refine ⟨?_, ?_, ?_⟩
  · intro o st fs req hst
    rcases serve_handler_outcomes o st fs req with
      ⟨e, lm, h⟩ | h | ⟨n, h⟩ | ⟨nd, s, h⟩ | ⟨dp, up, h⟩ | ⟨ct, e, lm, body, h⟩
    · rw [h, not_modified_response_status] at hst
      exact absurd hst (by decide)
    · rw [h, not_found_response_status] at hst
      exact absurd hst (by decide)
    · rw [h, rich_not_found_response_status] at hst
      exact absurd hst (by decide)
    · rw [h, too_large_response_status] at hst
      exact absurd hst (by decide)
    · rcases render_dir_outcomes st fs dp up with hnf | ⟨_, hx, he, _⟩
      · rw [h, hnf, not_found_response_status] at hst
        exact absurd hst (by decide)
      · rw [h]
        exact ⟨hx, he⟩
    · rw [h]
      exact ⟨rfl, rfl⟩
  · intro o st fs req hst
    rcases serve_handler_outcomes o st fs req with
      ⟨e, lm, h⟩ | h | ⟨n, h⟩ | ⟨nd, s, h⟩ | ⟨dp, up, h⟩ | ⟨ct, e, lm, body, h⟩
    · rw [h, not_modified_response_status] at hst
      exact absurd hst (by decide)
    · rw [h, not_found_response_status] at hst
      exact absurd hst (by decide)
    · rw [h, rich_not_found_response_status] at hst
      exact absurd hst (by decide)
    · rw [h, too_large_response_status] at hst
      exact absurd hst (by decide)
    · exact Or.inr ⟨dp, up, h⟩
    · rw [h]
      exact Or.inl rfl
  · intro st fs q hst
    rcases freshness_outcomes st fs q with h | ⟨n, h⟩
    · rw [h] at hst
      exact absurd hst (by decide)
    · rw [h]
      exact ⟨rfl, rfl, rfl⟩

set_option maxRecDepth 100000 in
/-- Counterexample for C2 as stated: the 200 directory-index response for
`GET /docs` has no `Last-Modified` header, and the freshness endpoint's
200 JSON response has no `ETag` (nor `Last-Modified`) — so not every 200
carries ETag, Last-Modified and nosniff. -/
theorem c2_200_headers_counterexample :
    (serve_handler sampleOracle sampleState sampleFs
        ⟨"/docs", "", none, none⟩).status = 200 ∧
      (serve_handler sampleOracle sampleState sampleFs
        ⟨"/docs", "", none, none⟩).hasHeader "Last-Modified" = false ∧
      (freshness_handler sampleState sampleFs "path=a.md").status = 200 ∧
      (freshness_handler sampleState sampleFs "path=a.md").hasHeader
        "ETag" = false ∧
      (freshness_handler sampleState sampleFs "path=a.md").hasHeader
        "Last-Modified" = false := by
  refine ⟨by decide, by decide, by decide, by decide, by decide⟩

set_option maxRecDepth 100000 in
/-- Witness for C2 (amended), at the 200 responses for `GET /a.md` and
the freshness probe of `a.md` on the sample filesystem. -/
theorem c2_200_header_invariants_witness :
    ((serve_handler sampleOracle sampleState sampleFs
        ⟨"/a.md", "", none, none⟩).hasHeader "X-Content-Type-Options" = true ∧
      (serve_handler sampleOracle sampleState sampleFs
        ⟨"/a.md", "", none, none⟩).hasHeader "ETag" = true) ∧
      (freshness_handler sampleState sampleFs "path=a.md").hasHeader
        "X-Content-Type-Options" = true := by
  constructor
  · exact c2_200_header_invariants.1 sampleOracle sampleState sampleFs
      ⟨"/a.md", "", none, none⟩ (by decide)
  · exact (c2_200_header_invariants.2.2 sampleState sampleFs "path=a.md"
      (by decide)).1

/-- C4: the size guard is strict — a file of exactly 16 MiB is dispatched
(the guard does not fire and the response is never 413), while a file of
16 MiB + 1 or more gets the 413 `too_large_response` carrying
`X-Content-Type-Options: nosniff`. -/
theorem c4_size_guard_strict :
    ∀ (o : Oracle) (st : AppState) (fs : Fs) (req : Request) (decoded : String)
      (normalized resolved : List String) (branch : String)
      (canonical : List String) (meta : FsMeta),
      req.path ≠ "/assets/mdmd.css" → req.path ≠ "/assets/mdmd.js" →
      percent_decode req.path = some decoded →
      strContainsChar (Char.ofNat 0) decoded = false →
      normalize_path decoded = some normalized →
      normalized ≠ [] →
      resolve_candidate fs (st.serve_root ++ normalized) = some (resolved, branch) →
      fs.canonicalize resolved = some canonical →
      path_starts_with canonical st.canonical_root = true →
      fs.metadata canonical = some meta →
      (meta.size = MAX_FILE_SIZE →
        serve_handler o st fs req = serveDispatch o fs req canonical meta ∧
          (serve_handler o st fs req).status ≠ 413) ∧
      (MAX_FILE_SIZE + 1 ≤ meta.size →
        serve_handler o st fs req =
            too_large_response (strJoinSep "/" normalized) meta.size ∧
          (serve_handler o st fs req).status = 413 ∧
          (serve_handler o st fs req).hasHeader "X-Content-Type-Options" = true) := by
  intro o st fs req decoded normalized resolved branch canonical meta
    h1 h2 h3 h4 h5 h6 h7 h8 h9 h10
  have hred := serve_handler_size_stage o st fs req decoded normalized
    resolved branch canonical meta h1 h2 h3 h4 h5 h6 h7 h8 h9 h10
  constructor
  · intro hsz
    have hlt : ¬ MAX_FILE_SIZE < meta.size := by omega
    rw [hred, if_neg hlt]
    exact ⟨rfl, serveDispatch_status_ne_413 o fs req canonical meta⟩
  · intro hsz
    have hlt : MAX_FILE_SIZE < meta.size := by omega
    rw [hred, if_pos hlt]
    exact ⟨rfl, rfl, rfl⟩

/-- Witness for C4: on the sample filesystem, `ok.bin` (exactly 16 MiB) is
not rejected with 413, while `big.bin` (16 MiB + 1) yields the 413
response. -/
theorem c4_size_guard_strict_witness :
    (serve_handler sampleOracle sampleState sampleFs
        ⟨"/ok.bin", "", none, none⟩).status ≠ 413 ∧
      serve_handler sampleOracle sampleState sampleFs
          ⟨"/big.bin", "", none, none⟩ =
        too_large_response "big.bin" 16777217 := by
  constructor
  · exact ((c4_size_guard_strict sampleOracle sampleState sampleFs
      ⟨"/ok.bin", "", none, none⟩ "/ok.bin" ["ok.bin"] ["root", "ok.bin"]
      "exact" ["root", "ok.bin"] ⟨true, false, 16777216, some 1500000000⟩
      (by decide) (by decide) (by decide) (by decide) (by decide) (by decide)
      (by decide) (by decide) (by decide) (by decide)).1 rfl).2
  · exact ((c4_size_guard_strict sampleOracle sampleState sampleFs
      ⟨"/big.bin", "", none, none⟩ "/big.bin" ["big.bin"] ["root", "big.bin"]
      "exact" ["root", "big.bin"] ⟨true, false, 16777217, some 1500000000⟩
      (by decide) (by decide) (by decide) (by decide) (by decide) (by decide)
      (by decide) (by decide) (by decide) (by decide)).2 (by decide)).1

/-- C10: the backlinks indexer processes `markdown`-extension files as
markdown sources, but the GET dispatch treats only `md` (ASCII
case-insensitively) as markdown and the MIME table lacks `markdown`, so
such a file is served as raw bytes with
`Content-Type: application/octet-stream`. -/
theorem c10_markdown_ext_static_dispatch :
    (∀ name : String, fileExt name = some "markdown" →
      indexer_processes_file name = true) ∧
    eq_ignore_ascii_case "markdown" "md" = false ∧
    mime_for_ext "markdown" = "application/octet-stream" ∧
    (∀ (o : Oracle) (st : AppState) (fs : Fs) (req : Request) (decoded : String)
      (normalized resolved : List String) (branch : String)
      (canonical : List String) (meta : FsMeta) (bytes : List Nat),
      req.path ≠ "/assets/mdmd.css" → req.path ≠ "/assets/mdmd.js" →
      percent_decode req.path = some decoded →
      strContainsChar (Char.ofNat 0) decoded = false →
      normalize_path decoded = some normalized →
      normalized ≠ [] →
      resolve_candidate fs (st.serve_root ++ normalized) = some (resolved, branch) →
      fs.canonicalize resolved = some canonical →
      path_starts_with canonical st.canonical_root = true →
      fs.metadata canonical = some meta →
      meta.size ≤ MAX_FILE_SIZE →
      pathExt canonical = some "markdown" →
      fs.readBytes canonical = some bytes →
      req.if_none_match = none →
      req.if_modified_since = none →
      serve_handler o st fs req =
        ⟨200,
          [("Content-Type", "application/octet-stream"),
           ("X-Content-Type-Options", "nosniff"),
           ("ETag", compute_etag bytes),
           ("Last-Modified", http_date_or_epoch o meta.mtime)],
          bytes⟩) := by
  refine ⟨?_, by decide, by decide, ?_⟩
  · intro name h
    unfold indexer_processes_file
    rw [h]
    rfl
  · intro o st fs req decoded normalized resolved branch canonical meta bytes
      h1 h2 h3 h4 h5 h6 h7 h8 h9 h10 hsz hext hbytes hinm hims
    rw [serve_handler_size_stage o st fs req decoded normalized resolved
      branch canonical meta h1 h2 h3 h4 h5 h6 h7 h8 h9 h10,
      if_neg (by omega)]
    unfold serveDispatch
    rw [hext]
    have hmd : eq_ignore_ascii_case ((some "markdown").getD "") "md" = false := by
      decide
    simp only [hmd, Bool.false_eq_true, if_false, hbytes]
    rw [hinm, hims]
    have := cache_check_none_none o (compute_etag bytes)
      (http_date_or_epoch o meta.mtime) meta.mtime
      (⟨200,
        [("Content-Type", mime_for_ext ((some "markdown").getD "")),
         ("X-Content-Type-Options", "nosniff"),
         ("ETag", compute_etag bytes),
         ("Last-Modified", http_date_or_epoch o meta.mtime)], bytes⟩ : Response)
    rw [this]
    rfl

/-- Witness for C10: `notes.markdown` on the sample filesystem is indexed
by the backlinks walk but served as `application/octet-stream` bytes. -/
theorem c10_markdown_ext_static_dispatch_witness :
    indexer_processes_file "notes.markdown" = true ∧
      serve_handler sampleOracle sampleState sampleFs
          ⟨"/notes.markdown", "", none, none⟩ =
        ⟨200,
          [("Content-Type", "application/octet-stream"),
           ("X-Content-Type-Options", "nosniff"),
           ("ETag", compute_etag [104, 105, 10]),
           ("Last-Modified", "Thu, 01 Jan 1970 00:00:00 GMT")],
          [104, 105, 10]⟩ := by
  constructor
  · exact c10_markdown_ext_static_dispatch.1 "notes.markdown" (by decide)
  · exact c10_markdown_ext_static_dispatch.2.2.2 sampleOracle sampleState
      sampleFs ⟨"/notes.markdown", "", none, none⟩ "/notes.markdown"
      ["notes.markdown"] ["root", "notes.markdown"] "exact"
      ["root", "notes.markdown"] ⟨true, false, 3, none⟩ [104, 105, 10]
      (by decide) (by decide) (by decide) (by decide) (by decide) (by decide)
      (by decide) (by decide) (by decide) (by decide) (by decide) (by decide)
      (by decide) rfl rfl

/-- The directory-index page's `<h1>` reads exactly `Index of ` followed
by the URL prefix as routed (no alteration of the prefix). -/
theorem dir_index_body_h1 (up : String) (es : List (String × Bool)) :
    ("<h1>Index of " ++ up ++ "</h1>").data <:+: (dir_index_body up es).data := by
  refine ⟨("<!DOCTYPE html><html lang=\"en\"><head><meta charset=\"utf-8\"><title>Index of ").data
      ++ up.data ++ ("</title></head><body><nav>").data
      ++ (build_breadcrumbs up).data ++ ("</nav>").data,
    ("<ul>").data
      ++ (es.foldl (fun a e =>
          a ++ dirItemHtml (if strLastIs '/' up then up else up ++ "/") e)
          "").data
      ++ ("</ul></body></html>").data, ?_⟩
  rw [dir_index_body_decomp, str_data_append, str_data_append]

/-- C7 (amended): a request resolving to a directory with neither
`README.md` nor `index.md` is routed to the directory lister with URL
prefix `"/" + normalized` — without a trailing slash — so the page h1
reads `Index of /<normalized>` (no trailing slash). -/
theorem c7_directory_listing_routing :
    (∀ (o : Oracle) (st : AppState) (fs : Fs) (req : Request)
      (decoded : String) (normalized : List String) (m : FsMeta),
      req.path ≠ "/assets/mdmd.css" → req.path ≠ "/assets/mdmd.js" →
      percent_decode req.path = some decoded →
      strContainsChar (Char.ofNat 0) decoded = false →
      normalize_path decoded = some normalized →
      normalized ≠ [] →
      resolve_candidate fs (st.serve_root ++ normalized) = none →
      fs.metadata (st.serve_root ++ normalized) = some m →
      m.isDir = true →
      serve_handler o st fs req =
        render_directory_index_response st fs (st.serve_root ++ normalized)
          ("/" ++ strJoinSep "/" normalized)) ∧
    (∀ (up : String) (es : List (String × Bool)),
      ("<h1>Index of " ++ up ++ "</h1>").data <:+: (dir_index_body up es).data) := by
  constructor
  · intro o st fs req decoded normalized m h1 h2 h3 h4 h5 h6 h7 h8 h9
    unfold serve_handler
    rw [if_neg h1, if_neg h2, h3]
    simp only [h4, Bool.false_eq_true, if_false, h5]
    rw [if_neg h6]
    simp only [h7, h8, h9, if_true]
  · exact dir_index_body_h1

set_option maxRecDepth 40000 in
/-- Witness for C7 (amended): `GET /docs` on the sample filesystem routes
to the directory lister with prefix `/docs`, and the rendered h1 is
`<h1>Index of /docs</h1>`. -/
theorem c7_directory_listing_routing_witness :
    serve_handler sampleOracle sampleState sampleFs ⟨"/docs", "", none, none⟩ =
        render_directory_index_response sampleState sampleFs ["root", "docs"]
          "/docs" ∧
      ("<h1>Index of " ++ "/docs" ++ "</h1>").data <:+:
        (dir_index_body "/docs" []).data := by
  constructor
  · exact c7_directory_listing_routing.1 sampleOracle sampleState sampleFs
      ⟨"/docs", "", none, none⟩ "/docs" ["docs"] ⟨false, true, 0, none⟩
      (by decide) (by decide) (by decide) (by decide) (by decide) (by decide)
      (by decide) (by decide) (by decide)
  · exact c7_directory_listing_routing.2 "/docs" []

set_option maxRecDepth 100000 in
/-- Counterexample for C7 as stated: for `GET /docs` (a directory with no
`README.md`/`index.md` on the sample filesystem) the 200 directory listing
does NOT title itself `Index of /docs/` — the trailing slash the claim
requires is absent (`<title>Index of /docs</title>`). -/
theorem c7_trailing_slash_counterexample :
    (serve_handler sampleOracle sampleState sampleFs
        ⟨"/docs", "", none, none⟩).status = 200 ∧
      ¬ (utf8_bytes "Index of /docs/" <:+:
        (serve_handler sampleOracle sampleState sampleFs
          ⟨"/docs", "", none, none⟩).body) ∧
      (utf8_bytes "<title>Index of /docs</title>" <:+:
        (serve_handler sampleOracle sampleState sampleFs
          ⟨"/docs", "", none, none⟩).body) := by
  refine ⟨by decide, by decide, by decide⟩

/-- `Char.ofNat` then `toNat` is the identity below the surrogate range. -/
theorem char_toNat_ofNat (n : Nat) (h : n < 0xD800) :
    (Char.ofNat n).toNat = n := by
  have hv : n.isValidChar := Or.inl h
  unfold Char.ofNat
  rw [dif_pos hv]
  rfl

/-- `Char.toNat` then `ofNat` is the identity on ASCII characters. -/
theorem char_ofNat_toNat_ascii (c : Char) (h : c.toNat < 128) :
    Char.ofNat c.toNat = c := by
  apply Char.eq_of_val_eq
  unfold Char.ofNat
  rw [dif_pos (Or.inl (show c.toNat < 0xd800 by omega))]
  apply UInt32.toNat.inj
  rfl

/-- ASCII characters encode to their single code unit. -/
theorem utf8EncodeChar_ascii (c : Char) (h : c.toNat < 128) :
    utf8EncodeChar c = [c.toNat] := by
  unfold utf8EncodeChar
  rw [if_pos h]

/-- A non-ASCII character's encoding contains a byte `≥ 128`. -/
theorem utf8EncodeChar_big (c : Char) (h : 128 ≤ c.toNat) :
    ∃ b ∈ utf8EncodeChar c, 128 ≤ b := by
  unfold utf8EncodeChar
  by_cases h1 : c.toNat < 0x80
  · omega
  · rw [if_neg h1]
    by_cases h2 : c.toNat < 0x800
    · rw [if_pos h2]
      exact ⟨0xC0 + c.toNat / 64, List.mem_cons_self _ _, by omega⟩
    · rw [if_neg h2]
      by_cases h3 : c.toNat < 0x10000
      · rw [if_pos h3]
        exact ⟨0xE0 + c.toNat / 4096, List.mem_cons_self _ _, by omega⟩
      · rw [if_neg h3]
        exact ⟨0xF0 + c.toNat / 262144, List.mem_cons_self _ _, by omega⟩

/-- An unreserved byte is ASCII and is not `%`. -/
theorem unreservedByte_range (b : Nat) (h : unreservedByte b = true) :
    b < 128 ∧ b ≠ 37 := by
  unfold unreservedByte at h
  simp only [Bool.or_eq_true, Bool.and_eq_true, decide_eq_true_eq] at h
  omega

/-- A string all of whose UTF-8 bytes are unreserved has only ASCII
characters. -/
theorem ascii_chars_of_unreserved (s : String)
    (h : ∀ b ∈ utf8_bytes s, unreservedByte b = true) :
    ∀ c ∈ s.data, c.toNat < 128 := by
  intro c hc
  by_contra hge
  obtain ⟨b, hbmem, hbge⟩ := utf8EncodeChar_big c (by omega)
  have hmem : b ∈ utf8_bytes s :=
    List.mem_flatten.mpr ⟨utf8EncodeChar c, List.mem_map_of_mem _ hc, hbmem⟩
  have := (unreservedByte_range b (h b hmem)).1
  omega

/-- Unreserved bytes pass through `percent_encode_segment` unchanged. -/
theorem percentEncode_unreserved (l : List Nat)
    (h : ∀ b ∈ l, unreservedByte b = true) :
    (l.map percentEncodeByte).flatten = l.map (fun b => Char.ofNat b) := by
  induction l with
  | nil => rfl
  | cons b l ih =>
    have hb := h b (List.mem_cons_self _ _)
    simp only [List.map_cons, List.flatten_cons,
      ih (fun x hx => h x (List.mem_cons_of_mem _ hx))]
    unfold percentEncodeByte
    rw [if_pos hb]
    rfl

/-- The UTF-8 bytes of an ASCII-byte character list are those bytes. -/
theorem utf8_bytes_of_ascii_bytes (l : List Nat) (h : ∀ b ∈ l, b < 128) :
    utf8_bytes (String.mk (l.map (fun b => Char.ofNat b))) = l := by
  unfold utf8_bytes
  induction l with
  | nil => rfl
  | cons b l ih =>
    have hb := h b (List.mem_cons_self _ _)
    have htn : (Char.ofNat b).toNat = b := char_toNat_ofNat b (by omega)
    simp only [List.map_cons, List.flatten_cons]
    rw [utf8EncodeChar_ascii _ (by rw [htn]; omega), htn]
    have := ih (fun x hx => h x (List.mem_cons_of_mem _ hx))
    simp only at this
    rw [this]
    rfl

/-- `%`-free byte lists decode to themselves. -/
theorem percentDecodeBytes_nopercent (l : List Nat) (h : ∀ b ∈ l, b ≠ 37) :
    percentDecodeBytes l = some l := by
  induction l with
  | nil => rfl
  | cons b l ih =>
    unfold percentDecodeBytes
    rw [if_neg (h b (List.mem_cons_self _ _)),
      ih (fun x hx => h x (List.mem_cons_of_mem _ hx))]
    rfl

/-- One reduction step of the decoder on a nonempty list with fuel. -/
theorem utf8DecodeGo_ascii_step (fuel b : Nat) (rest : List Nat)
    (hb : b < 0x80) :
    utf8DecodeGo (fuel + 1) (b :: rest) =
      (utf8DecodeGo fuel rest).map (fun cs => Char.ofNat b :: cs) := by
  show (if b < 0x80 then
      (utf8DecodeGo fuel rest).map (fun cs => Char.ofNat b :: cs)
    else _) = _
  rw [if_pos hb]

/-- The UTF-8 encoding of an ASCII string decodes back to it. -/
theorem utf8DecodeList_ascii (cs : List Char) (h : ∀ c ∈ cs, c.toNat < 128) :
    utf8DecodeList ((cs.map utf8EncodeChar).flatten) = some cs := by
  induction cs with
  | nil => rfl
  | cons c cs ih =>
    have hc := h c (List.mem_cons_self _ _)
    simp only [List.map_cons, List.flatten_cons, utf8EncodeChar_ascii c hc]
    show utf8DecodeGo ((c.toNat :: (cs.map utf8EncodeChar).flatten).length)
      (c.toNat :: (cs.map utf8EncodeChar).flatten) = _
    rw [List.length_cons, utf8DecodeGo_ascii_step _ _ _ hc]
    show (utf8DecodeList ((cs.map utf8EncodeChar).flatten)).map
      (fun l => Char.ofNat c.toNat :: l) = _
    rw [ih (fun x hx => h x (List.mem_cons_of_mem _ hx))]
    show some (Char.ofNat c.toNat :: cs) = some (c :: cs)
    rw [char_ofNat_toNat_ascii c hc]

/-- Membership in a list puts the image's block inside the flattened map. -/
theorem flatten_map_of_mem {α : Type} (f : α → List Char) (l : List α)
    (x : α) (hx : x ∈ l) : f x <:+: (l.map f).flatten := by
  obtain ⟨s1, s2, rfl⟩ := List.append_of_mem hx
  refine ⟨(s1.map f).flatten, (s2.map f).flatten, ?_⟩
  simp

/-- C8: `percent_decode` after `percent_encode_segment` is the identity on
segments made of unreserved bytes; a segment containing a space encodes
the space as `%20`; every non-ASCII byte of the UTF-8 encoding is emitted
as `%XX` with uppercase hex, byte by byte (shown concretely on `café` →
`caf%C3%A9`). -/
theorem c8_percent_roundtrip_and_encoding :
    (∀ s : String, (∀ b ∈ utf8_bytes s, unreservedByte b = true) →
      percent_decode (percent_encode_segment s) = some s) ∧
    (∀ s : String, 32 ∈ utf8_bytes s →
      ("%20").data <:+: (percent_encode_segment s).data) ∧
    (∀ (s : String) (b : Nat), b ∈ utf8_bytes s → 128 ≤ b →
      ['%', hexDigitUpper (b / 16), hexDigitUpper (b % 16)] <:+:
        (percent_encode_segment s).data) ∧
    percent_encode_segment "a b" = "a%20b" ∧
    percent_encode_segment "café" = "caf%C3%A9" := by
  refine ⟨?_, ?_, ?_, by decide, by decide⟩
  · intro s h
    have hlt : ∀ b ∈ utf8_bytes s, b < 128 :=
      fun b hb => (unreservedByte_range b (h b hb)).1
    have h37 : ∀ b ∈ utf8_bytes s, b ≠ 37 :=
      fun b hb => (unreservedByte_range b (h b hb)).2
    have henc : percent_encode_segment s =
        String.mk ((utf8_bytes s).map (fun b => Char.ofNat b)) := by
      unfold percent_encode_segment
      rw [percentEncode_unreserved _ h]
    have hbytes : utf8_bytes (percent_encode_segment s) = utf8_bytes s := by
      rw [henc]
      exact utf8_bytes_of_ascii_bytes _ hlt
    unfold percent_decode
    rw [hbytes, percentDecodeBytes_nopercent _ h37]
    show utf8_decode (utf8_bytes s) = some s
    unfold utf8_decode utf8_bytes
    rw [utf8DecodeList_ascii s.data (ascii_chars_of_unreserved s h)]
    cases s
    rfl
  · intro s hmem
    have h32 : percentEncodeByte 32 = ("%20").data := by decide
    show ("%20").data <:+: ((utf8_bytes s).map percentEncodeByte).flatten
    rw [← h32]
    exact flatten_map_of_mem percentEncodeByte _ 32 hmem
  · intro s b hmem hge
    have hunres : unreservedByte b = false := by
      cases hu : unreservedByte b
      · rfl
      · exact absurd (unreservedByte_range b hu).1 (by omega)
    have hb : percentEncodeByte b =
        ['%', hexDigitUpper (b / 16), hexDigitUpper (b % 16)] := by
      unfold percentEncodeByte
      rw [hunres]
      rfl
    show _ <:+: ((utf8_bytes s).map percentEncodeByte).flatten
    rw [← hb]
    exact flatten_map_of_mem percentEncodeByte _ b hmem

/-- Witness for C8: the unreserved segment `Guide-1.md` round-trips, and
the space/non-ASCII encodings hold on `a b` and `café`. -/
theorem c8_percent_roundtrip_and_encoding_witness :
    percent_decode (percent_encode_segment "Guide-1.md") = some "Guide-1.md" ∧
      ("%20").data <:+: (percent_encode_segment "a b").data ∧
      ['%', hexDigitUpper (195 / 16), hexDigitUpper (195 % 16)] <:+:
        (percent_encode_segment "café").data := by
  refine ⟨?_, ?_, ?_⟩
  · exact c8_percent_roundtrip_and_encoding.1 "Guide-1.md" (by decide)
  · exact c8_percent_roundtrip_and_encoding.2.1 "a b" (by decide)
  · exact c8_percent_roundtrip_and_encoding.2.2.1 "café" 195 (by decide)
      (by decide)

/-- If the images of a list's elements are distinct, at most one element
maps to any given value. -/
theorem filter_length_le_one_of_nodup_map {α β : Type} [DecidableEq β]
    (f : α → β) (l : List α) (hnd : (l.map f).Nodup) (k : β) :
    (l.filter fun e => f e = k).length ≤ 1 := by
  induction l with
  | nil => simp
  | cons x xs ih =>
    rw [List.map_cons, List.nodup_cons] at hnd
    obtain ⟨hx, hxs⟩ := hnd
    by_cases hfx : f x = k
    · have hxsnil : (xs.filter fun e => f e = k) = [] := by
        rw [List.filter_eq_nil_iff]
        intro e he
        simp only [decide_eq_true_eq]
        intro hek
        have hmem : f e ∈ xs.map f := List.mem_map_of_mem f he
        rw [hek, ← hfx] at hmem
        exact hx hmem
      simp [List.filter_cons, hfx, hxsnil]
    · simp only [List.filter_cons, hfx]
      simpa using ih hxs

/-- Every edge recorded by the per-document inversion loop: its source
fields come from the document, its key differs from the source and from
everything already seen, and its payload is that of the FIRST outbound
reference with that target. -/
theorem docEdgesGo_mem (source display : String) :
    ∀ (refs : List OutboundRef) (seen : List String) (k : String)
      (r : BacklinkRef),
      (k, r) ∈ docEdgesGo source display refs seen →
      r.source_url_path = source ∧ r.source_display = display ∧
        k ≠ source ∧ k ∉ seen ∧
        ∃ ob, refs.find? (fun ob => ob.target_url_path = k) = some ob ∧
          ob.target_url_path = k ∧ r.snippet = ob.snippet ∧
          r.target_fragment = ob.target_fragment := by
  intro refs
  induction refs with
  | nil => intro seen k r h; exact absurd h (List.not_mem_nil _)
  | cons o rest ih =>
    intro seen k r h
    unfold docEdgesGo at h
    by_cases hself : o.target_url_path = source
    · rw [if_pos hself] at h
      obtain ⟨h1, h2, h3, h4, ob, hfind, hob⟩ := ih seen k r h
      refine ⟨h1, h2, h3, h4, ob, ?_, hob⟩
      rw [List.find?_cons_of_neg, hfind]
      simp only [decide_eq_true_eq]
      intro hk
      exact h3 (hk ▸ hself)
    · rw [if_neg hself] at h
      by_cases hseen : seen.any fun x => x = o.target_url_path
      · rw [if_pos hseen] at h
        obtain ⟨h1, h2, h3, h4, ob, hfind, hob⟩ := ih seen k r h
        refine ⟨h1, h2, h3, h4, ob, ?_, hob⟩
        rw [List.find?_cons_of_neg, hfind]
        simp only [decide_eq_true_eq]
        intro hk
        rw [List.any_eq_true] at hseen
        obtain ⟨x, hxseen, hxeq⟩ := hseen
        rw [decide_eq_true_eq] at hxeq
        rw [← hk, ← hxeq] at h4
        exact h4 hxseen
      · rw [if_neg hseen] at h
        rcases List.mem_cons.mp h with hhead | htail
        · rw [Prod.mk.injEq] at hhead
          obtain ⟨hk, hr⟩ := hhead
          subst hk
          subst hr
          refine ⟨rfl, rfl, hself, ?_, o, ?_, rfl, rfl, rfl⟩
          · intro hmem
            exact hseen (List.any_eq_true.mpr ⟨_, hmem, by simp⟩)
          · rw [List.find?_cons_of_pos]
            simp
        · obtain ⟨h1, h2, h3, h4, ob, hfind, hob⟩ :=
            ih (o.target_url_path :: seen) k r htail
          have hne : k ≠ o.target_url_path := by
            intro hk
            exact h4 (hk ▸ List.mem_cons_self _ _)
          refine ⟨h1, h2, h3, fun hm => h4 (List.mem_cons_of_mem _ hm),
            ob, ?_, hob⟩
          rw [List.find?_cons_of_neg, hfind]
          simp only [decide_eq_true_eq]
          exact fun hk => hne hk.symm

/-- The keys recorded by one document are distinct and disjoint from the
seen set. -/
theorem docEdgesGo_keys_nodup (source display : String) :
    ∀ (refs : List OutboundRef) (seen : List String),
      ((docEdgesGo source display refs seen).map Prod.fst).Nodup ∧
        ∀ k ∈ (docEdgesGo source display refs seen).map Prod.fst,
          k ∉ seen := by
  intro refs
  induction refs with
  | nil =>
    intro seen
    constructor
    · show (List.map Prod.fst []).Nodup
      simp
    · show ∀ k ∈ List.map Prod.fst ([] : List (String × BacklinkRef)), _
      simp
  | cons o rest ih =>
    intro seen
    unfold docEdgesGo
    by_cases hself : o.target_url_path = source
    · rw [if_pos hself]
      exact ih seen
    · rw [if_neg hself]
      by_cases hseen : seen.any fun x => x = o.target_url_path
      · rw [if_pos hseen]
        exact ih seen
      · rw [if_neg hseen]
        obtain ⟨hnd, hdisj⟩ := ih (o.target_url_path :: seen)
        constructor
        · rw [List.map_cons, List.nodup_cons]
          exact ⟨fun hm => hdisj _ hm (List.mem_cons_self _ _), hnd⟩
        · intro k hk
          rw [List.map_cons] at hk
          rcases List.mem_cons.mp hk with hk1 | hk2
          · subst hk1
            intro hm
            exact hseen (List.any_eq_true.mpr ⟨_, hm, by simp⟩)
          · exact fun hm => hdisj _ hk2 (List.mem_cons_of_mem _ hm)

/-- The edges of one document, starting from an empty seen set. -/
def docEdges (d : DocSource) : List (String × BacklinkRef) :=
  docEdgesGo d.source_url_path d.source_display d.outbound_refs []

/-- The index over a document list is the concatenation of per-document
edges. -/
theorem build_backlinks_index_cons (d : DocSource) (ds : List DocSource) :
    build_backlinks_index (d :: ds) =
      docEdges d ++ build_backlinks_index ds := by
  unfold build_backlinks_index docEdges
  rw [List.map_cons, List.flatten_cons]

/-- Lookup distributes over index concatenation. -/
theorem indexLookup_append (a b : List (String × BacklinkRef)) (k : String) :
    indexLookup (a ++ b) k = indexLookup a k ++ indexLookup b k := by
  unfold indexLookup
  rw [List.filter_append, List.map_append]

/-- A looked-up reference is a recorded edge under that key. -/
theorem indexLookup_mem_edges (idx : List (String × BacklinkRef))
    (k : String) (r : BacklinkRef) (h : r ∈ indexLookup idx k) :
    (k, r) ∈ idx := by
  unfold indexLookup at h
  obtain ⟨e, he, hre⟩ := List.mem_map.mp h
  have hek := List.of_mem_filter he
  simp only [decide_eq_true_eq] at hek
  have hmem := List.mem_of_mem_filter he
  have heq : (k, r) = e := Prod.ext hek.symm hre.symm
  rw [heq]
  exact hmem

/-- Every reference looked up in the built index comes from some document
of the list, via the per-document loop. -/
theorem indexLookup_mem (docs : List DocSource) (k : String)
    (r : BacklinkRef) (h : r ∈ indexLookup (build_backlinks_index docs) k) :
    ∃ d ∈ docs, (k, r) ∈ docEdges d := by
  induction docs with
  | nil => exact absurd h (List.not_mem_nil _)
  | cons d ds ih =>
    rw [build_backlinks_index_cons, indexLookup_append] at h
    rcases List.mem_append.mp h with h1 | h2
    · exact ⟨d, List.mem_cons_self _ _, indexLookup_mem_edges _ k r h1⟩
    · obtain ⟨d2, hd2, hm⟩ := ih h2
      exact ⟨d2, List.mem_cons_of_mem _ hd2, hm⟩

/-- A single document contributes at most one reference per target key. -/
theorem docEdges_lookup_len (d : DocSource) (k : String) :
    (indexLookup (docEdges d) k).length ≤ 1 := by
  unfold indexLookup
  rw [List.length_map]
  exact filter_length_le_one_of_nodup_map
    (fun e : String × BacklinkRef => e.1) (docEdges d)
    (docEdgesGo_keys_nodup d.source_url_path d.source_display
      d.outbound_refs []).1 k

/-- C5: in the built Backlinks Index, no reference stored under key `K`
has `source_url_path = K` (no self-edges); for each (source, target) pair
at most one reference is stored, and a stored reference carries the
snippet and fragment of the first outbound link with that target in its
source document.  The hypothesis — distinct source keys — holds for any
directory walk, which visits each file once. -/
theorem c5_backlinks_index_invariants :
    ∀ (docs : List DocSource),
      (docs.map fun d => d.source_url_path).Nodup →
      ∀ k : String,
        (∀ r ∈ indexLookup (build_backlinks_index docs) k,
          r.source_url_path ≠ k ∧
            ∃ d ∈ docs, d.source_url_path = r.source_url_path ∧
              ∃ ob, d.outbound_refs.find?
                  (fun ob => ob.target_url_path = k) = some ob ∧
                ob.target_url_path = k ∧ r.snippet = ob.snippet ∧
                r.target_fragment = ob.target_fragment) ∧
        ∀ s : String,
          ((indexLookup (build_backlinks_index docs) k).filter
            fun r => r.source_url_path = s).length ≤ 1 := by
  intro docs hnd k
  constructor
  · intro r hr
    obtain ⟨d, hd, hm⟩ := indexLookup_mem docs k r hr
    obtain ⟨h1, _, h3, _, ob, hfind, hob1, hob2, hob3⟩ :=
      docEdgesGo_mem d.source_url_path d.source_display d.outbound_refs []
        k r hm
    refine ⟨?_, d, hd, h1.symm, ob, hfind, hob1, hob2, hob3⟩
    intro he
    exact h3 (he.symm.trans h1)
  · intro s
    induction docs with
    | nil => simp [build_backlinks_index, indexLookup]
    | cons d ds ih =>
      rw [List.map_cons, List.nodup_cons] at hnd
      obtain ⟨hd, hds⟩ := hnd
      rw [build_backlinks_index_cons, indexLookup_append,
        List.filter_append, List.length_append]
      by_cases hs : d.source_url_path = s
      · have htail :
            ((indexLookup (build_backlinks_index ds) k).filter
              fun r => r.source_url_path = s).length = 0 := by
          rw [List.length_eq_zero, List.filter_eq_nil_iff]
          intro r hrm
          simp only [decide_eq_true_eq]
          intro hrs
          obtain ⟨d2, hd2, hm2⟩ := indexLookup_mem ds k r hrm
          have hsrc := (docEdgesGo_mem d2.source_url_path d2.source_display
            d2.outbound_refs [] k r hm2).1
          have h2m : d2.source_url_path ∈ ds.map fun d => d.source_url_path :=
            List.mem_map_of_mem _ hd2
          rw [← hsrc, hrs, ← hs] at h2m
          exact hd h2m
        have hhead :
            ((indexLookup (docEdges d) k).filter
              fun r => r.source_url_path = s).length ≤ 1 :=
          le_trans (List.length_filter_le _ _) (docEdges_lookup_len d k)
        omega
      · have hhead :
            ((indexLookup (docEdges d) k).filter
              fun r => r.source_url_path = s).length = 0 := by
          rw [List.length_eq_zero, List.filter_eq_nil_iff]
          intro r hrm
          simp only [decide_eq_true_eq]
          intro hrs
          have hsrc := (docEdgesGo_mem d.source_url_path d.source_display
            d.outbound_refs [] k r (indexLookup_mem_edges _ k r hrm)).1
          exact hs (hsrc ▸ hrs)
        have htail := ih hds
        omega

/-- Witness for C5: two documents linking to `/b.md` (one of them twice,
and once to itself). -/
theorem c5_backlinks_index_invariants_witness :
    (∀ r ∈ indexLookup (build_backlinks_index
        [⟨"/a.md", "A", [⟨"/b.md", none, "s1"⟩, ⟨"/b.md", some "f", "s2"⟩,
          ⟨"/a.md", none, "self"⟩]⟩,
         ⟨"/c.md", "C", [⟨"/b.md", none, "s3"⟩]⟩]) "/b.md",
      r.source_url_path ≠ "/b.md") ∧
      ((indexLookup (build_backlinks_index
        [⟨"/a.md", "A", [⟨"/b.md", none, "s1"⟩, ⟨"/b.md", some "f", "s2"⟩,
          ⟨"/a.md", none, "self"⟩]⟩,
         ⟨"/c.md", "C", [⟨"/b.md", none, "s3"⟩]⟩]) "/b.md").filter
        fun r => r.source_url_path = "/a.md").length ≤ 1 := by
  constructor
  · intro r hr
    exact (((c5_backlinks_index_invariants
      [⟨"/a.md", "A", [⟨"/b.md", none, "s1"⟩, ⟨"/b.md", some "f", "s2"⟩,
        ⟨"/a.md", none, "self"⟩]⟩,
       ⟨"/c.md", "C", [⟨"/b.md", none, "s3"⟩]⟩] (by decide) "/b.md").1)
      r hr).1
  · exact ((c5_backlinks_index_invariants
      [⟨"/a.md", "A", [⟨"/b.md", none, "s1"⟩, ⟨"/b.md", some "f", "s2"⟩,
        ⟨"/a.md", none, "self"⟩]⟩,
       ⟨"/c.md", "C", [⟨"/b.md", none, "s3"⟩]⟩] (by decide) "/b.md").2)
      "/a.md"

/-- All decimal digits are below 10. -/
theorem decDigits_lt10 (n : Nat) : ∀ d ∈ decDigits n, d < 10 := by
  induction n using Nat.strong_induction_on with
  | _ n ih =>
    rw [decDigits_eq]
    by_cases h : n < 10
    · rw [if_pos h]
      intro d hd
      rw [List.mem_singleton] at hd
      omega
    · rw [if_neg h]
      intro d hd
      rcases List.mem_append.mp hd with h1 | h2
      · exact ih (n / 10) (Nat.div_lt_self (by omega) (by omega)) d h1
      · rw [List.mem_singleton] at h2
        omega

/-- Valuation of a digit list, most significant first. -/
def decVal (l : List Nat) : Nat :=
  l.foldl (fun a d => a * 10 + d) 0

/-- Appending a final digit multiplies the valuation by ten. -/
theorem decVal_append_single (l : List Nat) (d : Nat) :
    decVal (l ++ [d]) = decVal l * 10 + d := by
  unfold decVal
  rw [List.foldl_append]
  rfl

/-- The digit list of `n` evaluates back to `n`. -/
theorem decVal_decDigits (n : Nat) : decVal (decDigits n) = n := by
  induction n using Nat.strong_induction_on with
  | _ n ih =>
    rw [decDigits_eq]
    by_cases h : n < 10
    · rw [if_pos h]
      show 0 * 10 + n = n
      omega
    · rw [if_neg h, decVal_append_single,
        ih (n / 10) (Nat.div_lt_self (by omega) (by omega))]
      have := Nat.div_add_mod n 10
      omega

/-- The digit list of `n` is never empty. -/
theorem decDigits_ne_nil (n : Nat) : decDigits n ≠ [] := by
  rw [decDigits_eq]
  by_cases h : n < 10
  · rw [if_pos h]
    simp
  · rw [if_neg h]
    simp

/-- Digit characters recover their digits. -/
theorem digitChar_recover (l : List Nat) (hl : ∀ d ∈ l, d < 10) :
    (l.map digitChar).map (fun c => c.toNat - 48) = l := by
  induction l with
  | nil => rfl
  | cons d l ih =>
    have hd := hl d (List.mem_cons_self _ _)
    simp only [List.map_cons]
    rw [ih (fun x hx => hl x (List.mem_cons_of_mem _ hx))]
    have : (digitChar d).toNat = 48 + d := by
      unfold digitChar
      exact char_toNat_ofNat (48 + d) (by omega)
    rw [this]
    congr 1
    omega

/-- Decimal rendering is injective (data level). -/
theorem natDecimal_data_inj (m n : Nat)
    (h : (natDecimal m).data = (natDecimal n).data) : m = n := by
  unfold natDecimal at h
  simp only at h
  have hd : decDigits m = decDigits n := by
    rw [← digitChar_recover (decDigits m) (decDigits_lt10 m), h,
      digitChar_recover (decDigits n) (decDigits_lt10 n)]
  rw [← decVal_decDigits m, ← decVal_decDigits n, hd]

/-- A string never equals itself extended by `-` and a suffix. -/
theorem str_ne_append_hyphen (s r : String) : s ≠ s ++ "-" ++ r := by
  intro h
  have hdata := congrArg String.data h
  rw [str_data_append, str_data_append] at hdata
  have hlen : s.data.length = ((s.data ++ ("-" : String).data) ++ r.data).length := by
    rw [← hdata]
  rw [List.length_append, List.length_append] at hlen
  have h1 : (("-" : String)).data.length = 1 := rfl
  omega

/-- The spec-side counter over an extended prior list. -/
theorem specCountPrior_append_single (prior : List (Nat × String))
    (e : Nat × String) (x : String) :
    specCountPrior (prior ++ [e]) x =
      specCountPrior prior x + (if slugify e.2 = x then 1 else 0) := by
  unfold specCountPrior
  rw [List.filter_append, List.length_append]
  by_cases h : slugify e.2 = x
  · simp [List.filter, h]
  · simp [List.filter, h]

/-- The spec-side counter over a concatenation. -/
theorem specCountPrior_append (a b : List (Nat × String)) (x : String) :
    specCountPrior (a ++ b) x = specCountPrior a x + specCountPrior b x := by
  unfold specCountPrior
  rw [List.filter_append, List.length_append]

/-- The heading-extraction loop refines the spec-side per-position
counting, given a counter agreeing with the processed elements. -/
theorem extractHeadingsGo_eq_spec :
    ∀ (rest : List (Nat × String)) (counter : String → Nat)
      (prior : List (Nat × String)),
      (∀ x, counter x = specCountPrior prior x) →
      extractHeadingsGo counter rest = specHeadingsGo prior rest := by
  intro rest
  induction rest with
  | nil => intro counter prior _; rfl
  | cons ht rest ih =>
    obtain ⟨lv, t⟩ := ht
    intro counter prior hcnt
    have hnext : ∀ v : Nat,
        v = specCountPrior prior (slugify t) + 1 →
        ∀ x, updateCounter counter (slugify t) v x =
          specCountPrior (prior ++ [(lv, t)]) x := by
      intro v hv x
      unfold updateCounter
      rw [specCountPrior_append_single]
      by_cases hx : x = slugify t
      · rw [if_pos hx, hv, hx]
        simp
      · rw [if_neg hx, hcnt x]
        have hns : ¬ slugify ((lv, t)).2 = x := fun hc => hx (hc.symm)
        rw [if_neg hns]
        omega
    show extractHeadingsGo counter ((lv, t) :: rest) =
      specHeadingsGo prior ((lv, t) :: rest)
    unfold extractHeadingsGo specHeadingsGo
    dsimp only
    rw [hcnt (slugify t)]
    by_cases hc : specCountPrior prior (slugify t) = 0
    · rw [if_pos hc]
      have hanch : spec_anchor prior t = slugify t := by
        unfold spec_anchor
        rw [if_pos hc]
      rw [hanch, ih _ _ (hnext 1 (by omega))]
    · rw [if_neg hc]
      have hanch : spec_anchor prior t =
          slugify t ++ "-" ++ natDecimal (specCountPrior prior (slugify t)) := by
        unfold spec_anchor
        rw [if_neg hc]
      rw [hanch, ih _ _ (hnext _ rfl)]

/-- One step of the spec-side assignment. -/
theorem specHeadingsGo_cons (prior : List (Nat × String)) (x : Nat × String)
    (rest : List (Nat × String)) :
    specHeadingsGo prior (x :: rest) =
      ⟨x.1, x.2, spec_anchor prior x.2⟩ ::
        specHeadingsGo (prior ++ [x]) rest := by
  obtain ⟨lv, t⟩ := x
  rfl

/-- The spec-side assignment splits over concatenation. -/
theorem specHeadingsGo_append :
    ∀ (u v prior : List (Nat × String)),
      specHeadingsGo prior (u ++ v) =
        specHeadingsGo prior u ++ specHeadingsGo (prior ++ u) v := by
  intro u
  induction u with
  | nil =>
    intro v prior
    show specHeadingsGo prior v = [] ++ specHeadingsGo (prior ++ []) v
    rw [List.nil_append, List.append_nil]
  | cons x u ih =>
    intro v prior
    rw [List.cons_append, specHeadingsGo_cons, specHeadingsGo_cons,
      ih v (prior ++ [x]), List.cons_append]
    rw [List.append_assoc]
    rfl

/-- Two same-base-slug headings never receive the same anchor: the later
occurrence's counter is strictly larger. -/
theorem spec_anchor_ne_of_same_slug (l1 : List (Nat × String))
    (x : Nat × String) (l2 : List (Nat × String)) (y : Nat × String)
    (hslug : slugify x.2 = slugify y.2) :
    spec_anchor l1 x.2 ≠ spec_anchor (l1 ++ x :: l2) y.2 := by
  have hcy : specCountPrior (l1 ++ x :: l2) (slugify y.2) =
      specCountPrior l1 (slugify y.2) + 1 +
        specCountPrior l2 (slugify y.2) := by
    have : l1 ++ x :: l2 = (l1 ++ [x]) ++ l2 := by simp
    rw [this, specCountPrior_append, specCountPrior_append_single,
      if_pos hslug]
  unfold spec_anchor
  rw [hslug]
  by_cases hc : specCountPrior l1 (slugify y.2) = 0
  · rw [if_pos hc, if_neg (by omega)]
    exact str_ne_append_hyphen _ _
  · rw [if_neg hc, if_neg (by omega)]
    intro h
    have hdata := congrArg String.data h
    rw [str_data_append, str_data_append, str_data_append,
      str_data_append] at hdata
    have hdec := List.append_cancel_left hdata
    have := natDecimal_data_inj _ _ hdec
    omega

/-- C6 (amended): `render_markdown`'s anchor assignment equals the
spec-side per-position counting — the first heading with a base slug gets
the bare slug and the Nth additional gets `slug-(N-1)`, with one counter
per base slug across all levels — and two headings sharing a base slug
always receive distinct anchors.  (Global pairwise distinctness can still
fail when a heading's own base slug equals a generated suffixed id; see
the counterexample.) -/
theorem c6_heading_anchor_assignment :
    (∀ hs : List (Nat × String),
      render_markdown_headings hs = spec_heading_anchors hs) ∧
    (∀ (l1 : List (Nat × String)) (x : Nat × String)
      (l2 : List (Nat × String)) (y : Nat × String)
      (l3 : List (Nat × String)),
      slugify x.2 = slugify y.2 →
      render_markdown_headings (l1 ++ x :: (l2 ++ y :: l3)) =
        spec_heading_anchors l1 ++
          ⟨x.1, x.2, spec_anchor l1 x.2⟩ ::
            (specHeadingsGo (l1 ++ [x]) l2 ++
              ⟨y.1, y.2, spec_anchor (l1 ++ x :: l2) y.2⟩ ::
                specHeadingsGo ((l1 ++ x :: l2) ++ [y]) l3) ∧
        spec_anchor l1 x.2 ≠ spec_anchor (l1 ++ x :: l2) y.2) := by
  have hmain : ∀ hs : List (Nat × String),
      render_markdown_headings hs = spec_heading_anchors hs := by
    intro hs
    unfold render_markdown_headings spec_heading_anchors
    exact extractHeadingsGo_eq_spec hs (fun _ => 0) []
      (fun x => by unfold specCountPrior; rfl)
  refine ⟨hmain, ?_⟩
  intro l1 x l2 y l3 hslug
  constructor
  · rw [hmain]
    unfold spec_heading_anchors
    rw [specHeadingsGo_append l1 (x :: (l2 ++ y :: l3)) [],
      specHeadingsGo_cons, specHeadingsGo_append l2 (y :: l3),
      specHeadingsGo_cons]
    simp [List.append_assoc]
  · exact spec_anchor_ne_of_same_slug l1 x l2 y hslug

/-- Counterexample for C6 as stated: the document with headings
`## Foo`, `## Foo`, `## Foo 1` receives anchor ids
`foo`, `foo-1`, `foo-1` — not pairwise distinct, because the third
heading's own base slug collides with the generated id of the second. -/
theorem c6_anchor_collision_counterexample :
    ((render_markdown_headings [(2, "Foo"), (2, "Foo"), (2, "Foo 1")]).map
        fun h => h.anchor_id) = ["foo", "foo-1", "foo-1"] ∧
      ¬ ((render_markdown_headings
        [(2, "Foo"), (2, "Foo"), (2, "Foo 1")]).map
        fun h => h.anchor_id).Nodup := by
  refine ⟨by decide, by decide⟩

/-- Witness for C6 (amended), on a concrete three-heading document with a
duplicated base slug across different heading texts and levels. -/
theorem c6_heading_anchor_assignment_witness :
    render_markdown_headings [(2, "Foo"), (3, "Bar"), (1, "foo")] =
        spec_heading_anchors [(2, "Foo"), (3, "Bar"), (1, "foo")] ∧
      spec_anchor [] "Foo" ≠
        spec_anchor ([] ++ (2, ("Foo" : String)) :: [(3, "Bar")]) "foo" := by
  constructor
  · exact c6_heading_anchor_assignment.1 [(2, "Foo"), (3, "Bar"), (1, "foo")]
  · exact (c6_heading_anchor_assignment.2 [] (2, "Foo") [(3, "Bar")]
      (1, "foo") [] (by decide)).2

set_option maxRecDepth 40000 in
/-- C9: the full directory-index body interpolates the URL prefix and each
entry name verbatim (a `<` in them reaches the HTML unescaped), whereas
the rich-404 nearest-parent mini listing passes names and hrefs through
`html_escape_text`. -/
theorem c9_dir_index_unescaped_vs_listing_escaped :
    (("<title>Index of /x<y</title>").data <:+:
        (dir_index_body "/x<y" [("a<b.md", false)]).data) ∧
      ((">a<b.md</a>").data <:+:
        (dir_index_body "/x<y" [("a<b.md", false)]).data) ∧
      (¬ ("a&lt;b.md").data <:+:
        (dir_index_body "/x<y" [("a<b.md", false)]).data) ∧
      build_nearest_parent_listing_body ["root"]
          [⟨"a<b.md", false, none, some false⟩] "/x<y" =
        "<h2>Contents of /x&lt;y</h2><ul><li><a href=\"/x&lt;y/a%3Cb.md\">a&lt;b.md</a></li></ul>" ∧
      html_escape_text "a<b" = "a&lt;b" := by
  refine ⟨by decide, by decide, by decide, by decide, by decide⟩

end Mdmd
